import Mathlib

/-!
Verification development for the renpydux repository: a Redux-style
reducer/store library (src/renpydux/__init__.py) together with a reactive
signal graph (src/sebulvents/Signals.py) and dispatcher primitives
(src/sebulvents/EventDispatcher.py).

The Python source is shallowly embedded: pure functions become Lean
functions, stateful objects become explicit state records, and Python
exceptions become `Except` results.  A few fixed facts about the Python
runtime that the code relies on are modelled explicitly and documented at
the definition that uses them:

* `warnings.warn(message, category)` raises `TypeError` when `category`
  is not a `Warning` subclass (CPython `warnings.py`).
* Iterating a `set` raises `RuntimeError` when the set changes size
  during the iteration (CPython `setobject.c`).

The external draft-mutation collaborator (`immer.Proxy`) is out of scope
for the repository; following its contract, a handler applied to a draft
is modelled as a function from the draft value to the edited draft value,
and the materialized result of a session is the final draft value while
the base value is left untouched.
-/

/-- Python `set.add`: no-op when the element is already present.  Python
sets of handlers and of dependency edges are modelled as duplicate-free
lists in insertion order. -/
def setAdd (l : List Nat) (x : Nat) : List Nat :=
  if x ∈ l then l else l ++ [x]

/-- Python `set.discard`: removes the element when present. -/
def setDiscard (l : List Nat) (x : Nat) : List Nat :=
  l.filter (fun y => y ≠ x)

namespace Renpydux

/-- Dynamic Python values as used by the reducer-side code: either an
opaque scalar or an object with named attributes (a dataclass instance).
Attribute lists are keyed by field name, in declaration order. -/
inductive PyVal where
  | int (n : Int)
  | obj (fields : List (String × PyVal))
  deriving Repr

/-- Association-list lookup keyed by string, first match wins (the model
of Python dict and attribute lookup; dict keys are unique). -/
def alookup {B : Type} (name : String) : List (String × B) → Option B
  | [] => none
  | p :: rest => if p.1 = name then some p.2 else alookup name rest

/-- `getattr(v, name)` on an object value; `none` when the attribute is
missing (so `hasattr` is `Option.isSome` of this). -/
def getattrOpt : PyVal → String → Option PyVal
  | PyVal.int _, _ => none
  | PyVal.obj fields, name => alookup name fields

/-- `setattr(v, name, x)`: replaces an existing attribute, appends a new
one otherwise (Python object attribute assignment). On a scalar it is a
no-op stand-in; the source only calls it after a `hasattr` check. -/
def setattrPy : PyVal → String → PyVal → PyVal
  | PyVal.int n, _, _ => PyVal.int n
  | PyVal.obj fields, name, x =>
      if (alookup name fields).isSome then
        PyVal.obj (fields.map (fun p => if p.1 = name then (p.1, x) else p))
      else
        PyVal.obj (fields ++ [(name, x)])

/-- An `ActionableStateItem`: a `{type, payload}` record. -/
structure ActionableStateItem where
  type : String
  payload : Option PyVal
  deriving Repr

/-- Python errors raised by the reducer-side code. -/
inductive PyErr where
  | typeError (msg : String)
  | exception (msg : String)
  | runtimeError (msg : String)
  deriving Repr, DecidableEq

/-- CPython `warnings.warn(message, category, ...)`: when the category
argument is not a `Warning` subclass the call raises
`TypeError("category must be a Warning subclass, ...")` instead of
emitting the warning.  The model keeps just the fact the caller relies
on: whether the value passed in category position is a Warning subclass. -/
def warningsWarn (categoryIsWarningSubclass : Bool) : Except PyErr Unit :=
  if categoryIsWarningSubclass then Except.ok ()
  else Except.error (PyErr.typeError "category must be a Warning subclass")

/-- A reducer handler: receives the mutable draft and the action, and
returns the edited draft (the effect of its mutations on the draft). -/
abbrev Handler := PyVal → ActionableStateItem → PyVal

/-- `ActionReducerMapBuilder`: per-type case handlers (keyed by the
action type string), matcher predicates with their handlers, and an
optional default handler. -/
structure ActionReducerMapBuilder where
  actions_map : List (String × Handler)
  matchers_map : List ((ActionableStateItem → Bool) × Handler)
  default_reducer : Option Handler

/-- The empty builder produced by `ActionReducerMapBuilder.__init__`. -/
def ActionReducerMapBuilder.empty : ActionReducerMapBuilder :=
  { actions_map := [], matchers_map := [], default_reducer := none }

/-- `ActionReducerMapBuilder.add_case`: raises when any matcher is
registered, when a default is registered, when the action type is empty
(falsy), or when the type was already registered; otherwise records the
handler under the action type. -/
def ActionReducerMapBuilder.add_case (b : ActionReducerMapBuilder)
    (action : ActionableStateItem) (reducer_action : Handler) :
    Except PyErr ActionReducerMapBuilder :=
  if b.matchers_map.length > 0 then
    Except.error (PyErr.exception "add_case must be called before add_matcher")
  else if b.default_reducer.isSome then
    Except.error (PyErr.exception "add_case must be called before set_default_reducer")
  else if action.type = "" then
    Except.error (PyErr.exception "Action type is required")
  else if (alookup action.type b.actions_map).isSome then
    Except.error (PyErr.exception "Action already exists")
  else
    Except.ok { b with actions_map := b.actions_map ++ [(action.type, reducer_action)] }

/-- `ActionReducerMapBuilder.add_matcher`: raises when a default is
already registered, otherwise records the (predicate, handler) pair. -/
def ActionReducerMapBuilder.add_matcher (b : ActionReducerMapBuilder)
    (matcher : ActionableStateItem → Bool) (reducer_action : Handler) :
    Except PyErr ActionReducerMapBuilder :=
  if b.default_reducer.isSome then
    Except.error (PyErr.exception "add_matcher must be called before set_default_reducer")
  else
    Except.ok { b with matchers_map := b.matchers_map ++ [(matcher, reducer_action)] }

/-- `ActionReducerMapBuilder.set_default_reducer`: raises when a default
is already set. -/
def ActionReducerMapBuilder.set_default_reducer (b : ActionReducerMapBuilder)
    (reducer_action : Handler) : Except PyErr ActionReducerMapBuilder :=
  if b.default_reducer.isSome then
    Except.error (PyErr.exception "Default reducer already set")
  else
    Except.ok { b with default_reducer := some reducer_action }

/-- The inner `reducer` closure built by `createReducer` (lines 142-158
of src/renpydux/__init__.py).  The `with Proxy(base_state)` session
yields a draft (initially the base state) and a handle for the
materialized result; returning `new_state` inside the session returns
the materialized draft.  The fall-through branch calls
`warnings.warn(msg, action)`, passing the action object in the category
position, which raises `TypeError`; the trailing `return base_state` is
only reached when the warn call returns. -/
def createdReducer (builder : ActionReducerMapBuilder)
    (base_state : Option PyVal) (action : Option ActionableStateItem) :
    Except PyErr PyVal :=
  match base_state with
  | none => Except.error (PyErr.exception "State is required for reducers created from createReducer")
  | some base =>
    match action with
    | none => Except.ok base
    | some a =>
      match alookup a.type builder.actions_map with
      | some reducer_action => Except.ok (reducer_action base a)
      | none =>
        let draft := builder.matchers_map.foldl
          (fun d mr => if mr.1 a then mr.2 d a else d) base
        match builder.default_reducer with
        | some dflt => Except.ok (dflt draft a)
        | none =>
          match warningsWarn false with
          | Except.error e => Except.error e
          | Except.ok _ => Except.ok base

/-- The per-slice loop of `combineReducers`: for each named slice other
than the literal key "root", when the state has that attribute, read the
field, apply the slice reducer and write the result back on the
(shallow-copied) state.  Slices naming a missing attribute are skipped
by the `hasattr` guard. -/
def applySlices (slices : List (String × (PyVal → ActionableStateItem → PyVal)))
    (state : PyVal) (action : ActionableStateItem) : PyVal :=
  slices.foldl
    (fun next_state sl =>
      if sl.1 = "root" then next_state
      else
        match getattrOpt next_state sl.1 with
        | none => next_state
        | some sub_state => setattrPy next_state sl.1 (sl.2 sub_state action))
    state

/-- `combineReducers(slices)`: runs the per-slice loop on a shallow copy
of the incoming state, then, when a "root" reducer is present in the
mapping, applies it to the whole updated state and returns its result. -/
def combineReducers (slices : List (String × (PyVal → ActionableStateItem → PyVal)))
    (state : PyVal) (action : ActionableStateItem) : PyVal :=
  let next_state := applySlices slices state action
  match alookup "root" slices with
  | some root => root next_state action
  | none => next_state

/-! ### Dispatcher primitives (src/sebulvents/EventDispatcher.py) -/

/-- The observable effect a subscribed handler performs on its own
dispatcher when invoked during a notification: nothing, subscribing a
further handler, or unsubscribing a handler.  Handlers are identified
by reference identity, modelled as numeric ids. -/
inductive HandlerAct where
  | pure
  | subscribeOther (h : Nat)
  | unsubscribeOther (h : Nat)
  deriving Repr, DecidableEq

/-- Invoking handler `h` with the current subscriber set: returns the
subscriber set after the handler body ran (`subscribe` adds, and
`unsubscribe` discards, on the same dispatcher). -/
def applyHandler (henv : Nat → HandlerAct) (subs : List Nat) (h : Nat) : List Nat :=
  match henv h with
  | HandlerAct.pure => subs
  | HandlerAct.subscribeOther k => setAdd subs k
  | HandlerAct.unsubscribeOther k => setDiscard subs k

/-- The loop of `EventDispatcherBase.notify`:
`[handler(value) for handler in self.__subscribers]` iterates the LIVE
subscriber set.  CPython set iterators check, on every `next()` call
(including the final one that would end the iteration), whether the
number of elements changed since the iterator was created, and raise
`RuntimeError("Set changed size during iteration")` when it did.
Returns (error?, handler ids invoked in order, final subscriber set).
Set iteration order is unspecified in Python; the model iterates in
insertion order. -/
def notifyGo (henv : Nat → HandlerAct) (origSize : Nat) :
    List Nat → List Nat → List Nat → Option PyErr × List Nat × List Nat
  | remaining, subs, invoked =>
    if subs.length ≠ origSize then
      (some (PyErr.runtimeError "Set changed size during iteration"), invoked, subs)
    else
      match remaining with
      | [] => (none, invoked, subs)
      | h :: rest => notifyGo henv origSize rest (applyHandler henv subs h) (invoked ++ [h])

/-- `EventDispatcherBase.notify(value)` over the handlers registered at
call time, with the CPython live-set iteration semantics. -/
def notify (henv : Nat → HandlerAct) (subs : List Nat) :
    Option PyErr × List Nat × List Nat :=
  notifyGo henv subs.length subs subs []

/-! ### Store (src/renpydux/__init__.py, RenpyduxStore + ValueDispatcher)

For the store model the subscribed handlers are inert observers (they do
not mutate the subscription set), so a notification is recorded as the
list of (handler id, value) calls made. -/

/-- `ValueDispatcher`: remembers the last published value and its
subscriber set. -/
structure ValueDispatcher (T : Type) where
  value : T
  subscribers : List Nat

/-- `ValueDispatcher.notify(self.__value)`: every subscriber is invoked
with the stored value. -/
def ValueDispatcher.notifyCalls {T : Type} (d : ValueDispatcher T) : List (Nat × T) :=
  d.subscribers.map (fun h => (h, d.value))

/-- The `current` property setter: stores the value, then notifies. -/
def ValueDispatcher.setCurrent {T : Type} (d : ValueDispatcher T) (v : T) :
    ValueDispatcher T × List (Nat × T) :=
  let d2 : ValueDispatcher T := { d with value := v }
  (d2, d2.notifyCalls)

/-- `RenpyduxStore` after construction: the current state, and the
internal value dispatcher whose remembered value is the last published
(previous, next) pair (both halves Optional in the source types). -/
structure RenpyduxStore (σ : Type) where
  state : σ
  event : ValueDispatcher (Option σ × Option σ)

/-- `RenpyduxStore.dispatch(action)`: applies the reducer to the current
state, publishes `(lastPublishedPair.second, nextState)` through the
value dispatcher, stores the next state, and returns it.  The result is
(new store, returned state, notification calls made). -/
def RenpyduxStore.dispatch {σ : Type}
    (red : Option σ → Option ActionableStateItem → σ)
    (store : RenpyduxStore σ) (action : ActionableStateItem) :
    RenpyduxStore σ × σ × List (Nat × (Option σ × Option σ)) :=
  let next := red (some store.state) (some action)
  let published := (store.event.value.2, some next)
  let pair := store.event.setCurrent published
  ({ state := next, event := pair.1 }, next, pair.2)

end Renpydux

namespace Sebulvents

/-! ## Reactive signals (src/sebulvents/Signals.py)

Two models are used.  First a single-node model of `SignalContext`
whose interactions with the rest of the reactive graph (the outcome of
invoking the stored factory, including exceptions) are a parameter, so
that universally quantified per-signal properties cover every
surrounding graph.  Second a whole-graph operational model (`RSt`
below) with the global collection stack and set, used for the
cross-node properties. -/

/-- Raw values held by a `SignalContext`: a concrete value, a callable
factory (Python compares function objects by identity, modelled by a
numeric id), or the `SignalSymbols.DEFAULT` sentinel.  The sentinel is
a `str` Enum member, so under Python `==` the member and its backing
string are one equality class, represented by the one constructor.
Python `None` is `Option.none` around this type. -/
inductive RawV where
  | conc (n : Int)
  | func (id : Nat)
  | defaultSym
  deriving Repr, DecidableEq

/-- Python `callable(...)` on an optional raw value. -/
def isCallable : Option RawV → Bool
  | some (RawV.func _) => true
  | _ => false

/-- The value fields of one `SignalContext` (Signals.py lines 99-174)
plus the flag of its private `FlagDispatcher`.  Dependency edges and
subscriber sets influence neither these fields nor the results of the
operations below; the notification behaviour is captured by the Bool
returned by the mutating operations. -/
structure SignalContext where
  initial : Option RawV
  current : Option RawV
  last : Option RawV
  flag : Bool
  deriving Repr, DecidableEq

/-- `FlagDispatcher.raiseFlag`: sets the flag; subscribers (the
dependents' mark-dirty callbacks) are notified only on the
false-to-true transition.  Returns (new flag, notified?). -/
def raiseFlag (flag : Bool) : Bool × Bool :=
  if flag then (true, false) else (true, true)

/-- `SignalContext._parser` on a non-callable value.  The
`__parserCallback` slot consulted by `_parser` is never assigned
anywhere in the source (`defineParser` assigns a differently mangled
attribute name), so the fallback branch always runs and a non-callable
value parses to itself. -/
def parseValue (v : Option RawV) : Option RawV := v

/-- `SignalContext.__init__(value)`: remember the initial value; when
it is not None, store it as the current raw value and mark dirty (the
fresh dispatcher has no subscribers, so the notification reaches
nobody); when it is not callable, cache it as the last value. -/
def SignalContext.init (value : Option RawV) : SignalContext :=
  let s0 : SignalContext := { initial := value, current := none, last := none, flag := false }
  let s1 := if value ≠ none then { s0 with current := value, flag := (raiseFlag s0.flag).1 } else s0
  if ¬ isCallable value then { s1 with last := value } else s1

/-- `SignalContext.setter(value)` (lines 126-136): replace the DEFAULT
sentinel by the initial value; terminate when the (substituted) value
equals the current raw value under Python `==`; otherwise store it,
release the upstream dependency edges, cache the parsed value when it
is not callable, and mark dirty.  Returns (new state, whether the
dirty latch notified dependents on this call). -/
def SignalContext.setter (s : SignalContext) (value : Option RawV) :
    SignalContext × Bool :=
  let value := if value = some RawV.defaultSym then s.initial else value
  if s.current = value then (s, false)
  else
    let s1 := { s with current := value }
    let s2 := if ¬ isCallable value then { s1 with last := parseValue value } else s1
    let fr := raiseFlag s2.flag
    ({ s2 with flag := fr.1 }, fr.2)

/-- The possible outcomes of the factory call `self._current()` made
inside `SignalContext.getter`, together with the behaviour of the
surrounding collection protocol.  The factory is arbitrary consumer
code running against the shared reactive graph, so the outcome is a
parameter of the getter; quantifying over outcomes covers every run:
the factory returns a value (possibly None); it raises an error of the
`SignalException` family, which the getter catches; it raises any
other error, which propagates; `_beginCollection` raises the
circular-dependency error because the signal is already being
evaluated; or the factory returns a value but the subsequent
`_endCollection` raises on an unbalanced stack. -/
inductive FactOutcome where
  | val (r : Option RawV)
  | sigExcCaught
  | otherExc
  | beginRaises
  | valButEndRaises (r : Option RawV)
  deriving Repr, DecidableEq

/-- Errors escaping `Signal.get`. -/
inductive GetErr where
  | dangerous
  | mismatch
  | unresolved
  | other
  deriving Repr, DecidableEq

/-- Lines 139-146 of `SignalContext.getter`: when the dirty flag is
raised and the raw value is callable, clear the old dependency edges,
begin collection, run the factory inside `try ... except
SignalException` (on a caught reactive error the previous cache is
retained), end collection.  Python exceptions do not undo prior
mutations, so the state is returned alongside the error. -/
def SignalContext.getterRecompute (s : SignalContext) (out : FactOutcome) :
    Except GetErr Unit × SignalContext :=
  if s.flag && isCallable s.current then
    match out with
    | FactOutcome.beginRaises => (Except.error GetErr.dangerous, s)
    | FactOutcome.val r => (Except.ok (), { s with last := parseValue r })
    | FactOutcome.sigExcCaught => (Except.ok (), s)
    | FactOutcome.otherExc => (Except.error GetErr.other, s)
    | FactOutcome.valButEndRaises r =>
        (Except.error GetErr.mismatch, { s with last := parseValue r })
  else (Except.ok (), s)

/-- `SignalContext.getter` (lines 138-151): the recompute phase above,
then always reset the dirty flag, register the caller as a dependent
(`_collect`, edge bookkeeping only), and raise the unresolved-value
error when the cached value is None; otherwise return the cache. -/
def SignalContext.getter (s : SignalContext) (out : FactOutcome) :
    Except GetErr (Option RawV) × SignalContext :=
  match SignalContext.getterRecompute s out with
  | (Except.error e, s1) => (Except.error e, s1)
  | (Except.ok _, s1) =>
    let s2 := { s1 with flag := false }
    match s2.last with
    | none => (Except.error GetErr.unresolved, s2)
    | some _ => (Except.ok s2.last, s2)

/-- `SignalContext.reset`: `setter(initial)` when an initial value
exists. -/
def SignalContext.resetOp (s : SignalContext) : SignalContext × Bool :=
  if s.initial ≠ none then SignalContext.setter s s.initial else (s, false)

/-- `SignalContext.save`: `setter(getter())`; when the getter raises,
the setter is not reached. -/
def SignalContext.saveOp (s : SignalContext) (out : FactOutcome) :
    SignalContext × Bool :=
  match SignalContext.getter s out with
  | (Except.error _, s1) => (s1, false)
  | (Except.ok v, s1) => SignalContext.setter s1 v

/-- `SignalContext._dispose`: releases edges and subscribers (not
modelled here) and clears the initial, cached and current values. -/
def SignalContext.dispose (s : SignalContext) : SignalContext :=
  { s with initial := none, last := none, current := none }

/-- The signal states reachable through the public `SignalContext`
interface, starting from `__init__`, with factory outcomes quantified
over every possibility. -/
inductive SigReachable : SignalContext → Prop where
  | init (v : Option RawV) : SigReachable (SignalContext.init v)
  | set (s : SignalContext) (v : Option RawV) :
      SigReachable s → SigReachable (SignalContext.setter s v).1
  | get (s : SignalContext) (out : FactOutcome) :
      SigReachable s → SigReachable (SignalContext.getter s out).2
  | reset (s : SignalContext) :
      SigReachable s → SigReachable (SignalContext.resetOp s).1
  | save (s : SignalContext) (out : FactOutcome) :
      SigReachable s → SigReachable (SignalContext.saveOp s out).1
  | dispose (s : SignalContext) :
      SigReachable s → SigReachable (SignalContext.dispose s)

/-- The invariant backing the equality short-circuit: the current raw
value is the DEFAULT sentinel only when the initial value is that very
sentinel (the setter replaces an incoming sentinel by the initial
value before it ever stores it). -/
def SigInv (s : SignalContext) : Prop :=
  s.current = some RawV.defaultSym → s.initial = some RawV.defaultSym

/-- Repeated `setter(v)` with the same argument: folds `n` setter
calls and counts how many of them notified dependents. -/
def setterIter (s : SignalContext) (v : Option RawV) : Nat → SignalContext × Nat
  | 0 => (s, 0)
  | n+1 =>
    let r := SignalContext.setter s v
    let rest := setterIter r.1 v n
    (rest.1, (if r.2 then 1 else 0) + rest.2)

end Sebulvents

namespace Sebulvents

/-! ## Whole-graph reactive model

Nodes of the reactive graph (`SignalContext`, `ComputedContext`,
`EffectContext`) share the `DependencyContext` protocol built around
the process-wide `CollectionStack` and `CollectionSet`.  Factories and
effect bodies are consumer code whose reactive-relevant behaviour is
reading other nodes; they are embedded as small expressions over node
reads.  Evaluation is fueled: the fuel bounds the nesting depth of
node recomputations, and exhausting it yields the artificial
`RErr.fuelOut` result, which no part of the model catches. -/

/-- A factory or effect body: an integer expression over node reads
(`read j` is `node_j.get()`). -/
inductive FExpr where
  | const (n : Int)
  | read (j : Nat)
  | add (a b : FExpr)
  deriving Repr, DecidableEq

/-- Static description of a node: a signal (its mutable raw value may
point into the factory table `fenv`), a computed value with its
factory, or an effect with its callback body. -/
inductive NodeDef where
  | sigDef
  | compDef (fac : FExpr)
  | effDef (body : FExpr)
  deriving Repr, DecidableEq

/-- The static part of a reactive graph: the node definitions and the
table of factory closures a signal's raw value can refer to
(`RawV.func fid` points at `fenv[fid]`). -/
structure RCfg where
  defs : List NodeDef
  fenv : List FExpr
  deriving Repr, DecidableEq

/-- Mutable per-node state: the dirty latch of the node's
`FlagDispatcher`, its upstream dependency edges (`_dependencies`), the
subscribers of its dispatcher (the node ids of dependents whose
mark-dirty callback is subscribed), and the value slots.  `current`
and `initial` are meaningful for signal nodes only. -/
structure NSt where
  flag : Bool
  deps : List Nat
  subs : List Nat
  current : Option RawV
  initial : Option RawV
  last : Option RawV
  deriving Repr, DecidableEq

/-- Mutable global state: the node states, `CollectionStack` (head is
the top) and `CollectionSet`. -/
structure RSt where
  nodes : List NSt
  stack : List Nat
  cset : List Nat
  deriving Repr, DecidableEq

/-- Errors arising in the whole-graph model.  `dangerous` and
`mismatch` form the `SignalException` family; `unresolvedSignal`,
`unresolvedComputed` and `indexErr` are plain Python exceptions;
`typeErr` models arithmetic on a non-integer; `badNode` marks
dereferences that cannot occur in states built by the API; `fuelOut`
is the artificial out-of-fuel result. -/
inductive RErr where
  | dangerous
  | mismatch
  | indexErr
  | unresolvedSignal
  | unresolvedComputed
  | typeErr
  | badNode
  | fuelOut
  deriving Repr, DecidableEq

/-- Membership in the `SignalException` error family (the only errors
the `except SignalException` clause of `SignalContext.getter`
catches). -/
def isSigFamily : RErr → Bool
  | RErr.dangerous => true
  | RErr.mismatch => true
  | _ => false

/-- The state of node `i`, when it exists. -/
def getN (st : RSt) (i : Nat) : Option NSt := st.nodes.get? i

/-- Apply `f` to the state of node `i`. -/
def modifyN (st : RSt) (i : Nat) (f : NSt → NSt) : RSt :=
  match st.nodes.get? i with
  | none => st
  | some nd => { st with nodes := st.nodes.set i (f nd) }

/-- `dependency.unsubscribe(self._markDirty)`: removes node `i` from
the subscriber set of node `d`. -/
def removeSubEdge (st : RSt) (d i : Nat) : RSt :=
  modifyN st d (fun nd => { nd with subs := nd.subs.filter (fun y => y ≠ i) })

/-- `DependencyContext._clearDependencies`: unsubscribe the mark-dirty
callback of node `i` from every recorded dependency, then clear its
edge set. -/
def clearDependencies (st : RSt) (i : Nat) : RSt :=
  match getN st i with
  | none => st
  | some nd =>
    let st1 := nd.deps.foldl (fun acc d => removeSubEdge acc d i) st
    modifyN st1 i (fun n2 => { n2 with deps := [] })

/-- `DependencyContext._beginCollection`: raise the circular-dependency
error when node `i` is already in the collection set, otherwise push it
on the stack and add it to the set. -/
def beginCollection (st : RSt) (i : Nat) : Except RErr Unit × RSt :=
  if i ∈ st.cset then (Except.error RErr.dangerous, st)
  else (Except.ok (), { st with stack := i :: st.stack, cset := i :: st.cset })

/-- `DependencyContext._endCollection`: discard node `i` from the set,
pop the stack (an empty stack raises IndexError), and raise the
stack-mismatch error when the popped frame is not `i`.  The pop happens
before the comparison, so the stack shrinks even on a mismatch. -/
def endCollection (st : RSt) (i : Nat) : Except RErr Unit × RSt :=
  let st1 := { st with cset := st.cset.filter (fun y => y ≠ i) }
  match st1.stack with
  | [] => (Except.error RErr.indexErr, st1)
  | top :: rest =>
    let st2 := { st1 with stack := rest }
    if top = i then (Except.ok (), st2) else (Except.error RErr.mismatch, st2)

/-- `FlagDispatcher.raiseFlag` with its notification cascade, as a
worklist: an already-raised flag notifies nobody; a false-to-true
transition notifies the subscribers, whose mark-dirty callbacks raise
their own flags in turn.  (For effect nodes the source additionally
runs the effect body from this notification; that wiring is exercised
by no claim and the cascade here only raises flags.)  Fuel bounds the
cascade; the cascade terminates in Python because each node flips at
most once. -/
def raiseFlagGo : Nat → RSt → List Nat → Except RErr Unit × RSt
  | 0, st, _ => (Except.error RErr.fuelOut, st)
  | _+1, st, [] => (Except.ok (), st)
  | fuel+1, st, i :: rest =>
    match getN st i with
    | none => raiseFlagGo fuel st rest
    | some nd =>
      if nd.flag then raiseFlagGo fuel st rest
      else
        let st1 := modifyN st i (fun n2 => { n2 with flag := true })
        raiseFlagGo fuel st1 ((((getN st1 i).map NSt.subs).getD []) ++ rest)

/-- `DependencyContext._collect` for node `i`: when the collection
stack is non-empty, record `i` in the edge set of the stack top and
subscribe the top's mark-dirty callback to the dispatcher of `i`.
`FlagDispatcher.subscribe` invokes the handler immediately when the
flag is already raised (inside the getters this branch is dead: the
flag of `i` was reset just before `_collect` runs). -/
def collectN (fuel : Nat) (st : RSt) (i : Nat) : Except RErr Unit × RSt :=
  match st.stack with
  | [] => (Except.ok (), st)
  | top :: _ =>
    let st1 := modifyN st top (fun nd => { nd with deps := setAdd nd.deps i })
    let st2 := modifyN st1 i (fun nd => { nd with subs := setAdd nd.subs top })
    match getN st2 i with
    | none => (Except.ok (), st2)
    | some nd => if nd.flag then raiseFlagGo fuel st2 [top] else (Except.ok (), st2)

/-- The shared tail of `SignalContext.getter` and
`ComputedContext.getter`: reset the dirty flag, run `_collect`, then
raise the given unresolved-value error when the cache is None, else
return the cache. -/
def getterTail (fuel : Nat) (st : RSt) (i : Nat) (unresolvedErr : RErr) :
    Except RErr RawV × RSt :=
  let st1 := modifyN st i (fun n2 => { n2 with flag := false })
  match collectN fuel st1 i with
  | (Except.error e, st2) => (Except.error e, st2)
  | (Except.ok _, st2) =>
    match getN st2 i with
    | none => (Except.error RErr.badNode, st2)
    | some nd =>
      match nd.last with
      | none => (Except.error unresolvedErr, st2)
      | some v => (Except.ok v, st2)

/-- The continuation of `SignalContext.getter` after the try block:
`_endCollection` (which may itself raise when the caught factory error
left the stack unbalanced), then the shared getter tail. -/
def sigAfterTry (fuel : Nat) (st : RSt) (i : Nat) : Except RErr RawV × RSt :=
  match endCollection st i with
  | (Except.error e, st2) => (Except.error e, st2)
  | (Except.ok _, st2) => getterTail fuel st2 i RErr.unresolvedSignal

mutual

/-- `node_i.get()`: `ComputedContext.getter` (lines 200-213) for
computed nodes and `SignalContext.getter` (lines 138-151) for signal
nodes.  A dirty computed node clears its edges, begins collection,
evaluates its factory with no exception handling, stores the result,
ends collection; a dirty factory-backed signal does the same but runs
the factory inside `try ... except SignalException` (a caught reactive
error keeps the previous cache and execution continues with
`_endCollection`).  Both then reset the flag, collect, and fail on a
None cache.  Effects expose no getter. -/
def getNode : Nat → RCfg → RSt → Nat → Except RErr RawV × RSt
  | 0, _, st, _ => (Except.error RErr.fuelOut, st)
  | fuel+1, cfg, st, i =>
    match cfg.defs.get? i, getN st i with
    | some (NodeDef.compDef fac), some nd =>
      if nd.flag then
        let st1 := clearDependencies st i
        match beginCollection st1 i with
        | (Except.error e, st2) => (Except.error e, st2)
        | (Except.ok _, st2) =>
          match evalE fuel cfg st2 fac with
          | (Except.error e, st3) => (Except.error e, st3)
          | (Except.ok r, st3) =>
            let st4 := modifyN st3 i (fun n2 => { n2 with last := some (RawV.conc r) })
            match endCollection st4 i with
            | (Except.error e, st5) => (Except.error e, st5)
            | (Except.ok _, st5) => getterTail (fuel+1) st5 i RErr.unresolvedComputed
      else getterTail (fuel+1) st i RErr.unresolvedComputed
    | some NodeDef.sigDef, some nd =>
      if nd.flag && isCallable nd.current then
        let st1 := clearDependencies st i
        match beginCollection st1 i with
        | (Except.error e, st2) => (Except.error e, st2)
        | (Except.ok _, st2) =>
          match nd.current with
          | some (RawV.func fid) =>
            match cfg.fenv.get? fid with
            | none => (Except.error RErr.badNode, st2)
            | some fexpr =>
              match evalE fuel cfg st2 fexpr with
              | (Except.ok r, st3) =>
                sigAfterTry (fuel+1)
                  (modifyN st3 i (fun n2 => { n2 with last := some (RawV.conc r) })) i
              | (Except.error e, st3) =>
                if isSigFamily e then sigAfterTry (fuel+1) st3 i
                else (Except.error e, st3)
          | _ => (Except.error RErr.badNode, st2)
      else getterTail (fuel+1) st i RErr.unresolvedSignal
    | some (NodeDef.effDef _), _ => (Except.error RErr.badNode, st)
    | _, _ => (Except.error RErr.badNode, st)

/-- Evaluation of a factory or effect body; `read j` invokes the getter
of node `j` and requires an integer result.  Fuel is consumed at every
step so that the mutual recursion is structural; the Python code has
no step bound and the fuel is an artifact of the embedding. -/
def evalE : Nat → RCfg → RSt → FExpr → Except RErr Int × RSt
  | 0, _, st, _ => (Except.error RErr.fuelOut, st)
  | _+1, _, st, FExpr.const n => (Except.ok n, st)
  | fuel+1, cfg, st, FExpr.read j =>
    (match getNode fuel cfg st j with
     | (Except.ok (RawV.conc n), st2) => (Except.ok n, st2)
     | (Except.ok _, st2) => (Except.error RErr.typeErr, st2)
     | (Except.error e, st2) => (Except.error e, st2))
  | fuel+1, cfg, st, FExpr.add a b =>
    (match evalE fuel cfg st a with
     | (Except.error e, st2) => (Except.error e, st2)
     | (Except.ok n1, st2) =>
       match evalE fuel cfg st2 b with
       | (Except.error e, st3) => (Except.error e, st3)
       | (Except.ok n2, st3) => (Except.ok (n1 + n2), st3))

end

/-- `EffectContext.__update` (lines 226-232): clear edges, begin
collection, run the callback body (no exception handling), end
collection, reset the dirty flag. -/
def effUpdate (fuel : Nat) (cfg : RCfg) (st : RSt) (i : Nat) :
    Except RErr Unit × RSt :=
  match cfg.defs.get? i with
  | some (NodeDef.effDef body) =>
    let st1 := clearDependencies st i
    match beginCollection st1 i with
    | (Except.error e, st2) => (Except.error e, st2)
    | (Except.ok _, st2) =>
      match evalE fuel cfg st2 body with
      | (Except.error e, st3) => (Except.error e, st3)
      | (Except.ok _, st3) =>
        match endCollection st3 i with
        | (Except.error e, st4) => (Except.error e, st4)
        | (Except.ok _, st4) =>
          (Except.ok (), modifyN st4 i (fun n2 => { n2 with flag := false }))
  | _ => (Except.error RErr.badNode, st)

/-- `SignalContext.setter` in the whole-graph model (used to build
concrete graph states through the API). -/
def rsigSet (fuel : Nat) (st : RSt) (i : Nat) (value : Option RawV) :
    Except RErr Unit × RSt :=
  match getN st i with
  | none => (Except.error RErr.badNode, st)
  | some nd =>
    let value := if value = some RawV.defaultSym then nd.initial else value
    if nd.current = value then (Except.ok (), st)
    else
      let st1 := modifyN st i (fun n2 => { n2 with current := value })
      let st2 := clearDependencies st1 i
      let st3 :=
        if ¬ isCallable value then
          modifyN st2 i (fun n2 => { n2 with last := parseValue value })
        else st2
      raiseFlagGo fuel st3 [i]

/-- The node state produced by `SignalContext.__init__(value)` (the
fresh dispatcher has no subscribers, so the constructor notification
reaches nobody and only raises the flag). -/
def rsigInitNode (value : Option RawV) : NSt :=
  let n0 : NSt := { flag := false, deps := [], subs := [],
                    current := none, initial := value, last := none }
  let n1 := if value ≠ none then { n0 with current := value, flag := true } else n0
  if ¬ isCallable value then { n1 with last := value } else n1

/-- The node state produced by `ComputedContext.__init__` (marked dirty
at construction, empty cache). -/
def compInitNode : NSt :=
  { flag := true, deps := [], subs := [], current := none, initial := none, last := none }

/-- Node ids read by an expression. -/
def readsE : FExpr → List Nat
  | FExpr.const _ => []
  | FExpr.read j => [j]
  | FExpr.add a b => readsE a ++ readsE b

/-- Node ids read by the factory of computed node `i`. -/
def readsOf (cfg : RCfg) (i : Nat) : List Nat :=
  match cfg.defs.get? i with
  | some (NodeDef.compDef fac) => readsE fac
  | _ => []

/-- One step of the syntactic read graph: the factory of `a` reads
`b`. -/
def ReadStep (cfg : RCfg) (a b : Nat) : Prop := b ∈ readsOf cfg a

/-- `a` reads `b` through a non-empty chain of factory reads. -/
def ReadPath (cfg : RCfg) : Nat → Nat → Prop := Relation.TransGen (ReadStep cfg)

/-- Every node of the graph is a computed value. -/
def AllComputed (cfg : RCfg) : Prop :=
  ∀ d ∈ cfg.defs, ∃ fac, d = NodeDef.compDef fac

/-- Every factory read targets an existing node. -/
def WFReads (cfg : RCfg) : Prop :=
  ∀ i, ∀ j ∈ readsOf cfg i, j < cfg.defs.length

/-- A fresh graph state for `cfg`: one node state per definition, all
dirty (as after construction), empty collection stack and set. -/
def FreshFor (cfg : RCfg) (st : RSt) : Prop :=
  st.nodes.length = cfg.defs.length ∧ st.stack = [] ∧ st.cset = [] ∧
    ∀ nd ∈ st.nodes, nd.flag = true

/-- The dirty flag of node `i` (false for a nonexistent node). -/
def flagOf (st : RSt) (i : Nat) : Bool :=
  ((getN st i).map NSt.flag).getD false

/-- The cache of node `i`. -/
def lastOf (st : RSt) (i : Nat) : Option RawV :=
  ((getN st i).map NSt.last).getD none

/-- The raw current value of node `i`. -/
def currentOf (st : RSt) (i : Nat) : Option RawV :=
  ((getN st i).map NSt.current).getD none

/-- A fully-evaluated node: its flag is down and every node its
factory reads is itself fully evaluated.  Being inductively generated,
a Done node cannot lie on a read cycle. -/
inductive DoneNode (cfg : RCfg) (st : RSt) : Nat → Prop where
  | mk (j : Nat) : flagOf st j = false →
      (∀ k ∈ readsOf cfg j, DoneNode cfg st k) → DoneNode cfg st j

end Sebulvents

/-- Whether an `Except` result is a success. -/
def exOk {E A : Type} : Except E A → Bool
  | Except.ok _ => true
  | Except.error _ => false

namespace Renpydux

/-- Concrete handler environment: handler 0 subscribes a new handler 1
during the notification; every other handler does nothing. -/
def henvC6 : Nat → HandlerAct :=
  fun h => if h = 0 then HandlerAct.subscribeOther 1 else HandlerAct.pure

/-- Concrete slice mapping for combineReducers: one slice named "a"
whose reducer maps any sub-state to 99. -/
def slicesC7 : List (String × (PyVal → ActionableStateItem → PyVal)) :=
  [("a", fun _ _ => PyVal.int 99)]

/-- Concrete builder holding one matcher that matches every action (its
handler replaces the draft by 42) and no case, no default. -/
def builderMatcherOnly : ActionReducerMapBuilder :=
  { actions_map := [], matchers_map := [(fun _ => true, fun _ _ => PyVal.int 42)],
    default_reducer := none }

/-- The same builder with an identity default handler added. -/
def builderMatcherDefault : ActionReducerMapBuilder :=
  { builderMatcherOnly with default_reducer := some (fun d _ => d) }

end Renpydux

namespace Sebulvents

/-- Concrete graph for the chain-through-a-signal scenario: computed
node 0 whose factory reads signal node 1; the factory closure `fenv[0]`
reads node 0 back. -/
def cfgC4 : RCfg :=
  { defs := [NodeDef.compDef (FExpr.read 1), NodeDef.sigDef], fenv := [FExpr.read 0] }

/-- Concrete graph state built through the API: node 1 is
`SignalContext(5)` then `set(<factory reading node 0>)` — its raw value
is the factory and its cache still holds 5; node 0 is a freshly
constructed computed value. -/
def stC4 : RSt :=
  (rsigSet 9
    { nodes := [compInitNode, rsigInitNode (some (RawV.conc 5))], stack := [], cset := [] }
    1 (some (RawV.func 0))).2

/-- Concrete graph for the failing-recomputation scenario: computed
node 0 reads signal node 1, which was created with initial value None
(so reading it raises the plain unresolved-value error). -/
def cfgC8 : RCfg :=
  { defs := [NodeDef.compDef (FExpr.read 1), NodeDef.sigDef], fenv := [] }

/-- Fresh state for `cfgC8`. -/
def stC8 : RSt :=
  { nodes := [compInitNode, rsigInitNode none], stack := [], cset := [] }

/-- A two-node ring of computed values: node 0 reads node 1 and node 1
reads node 0. -/
def cfgRing2 : RCfg :=
  { defs := [NodeDef.compDef (FExpr.read 1), NodeDef.compDef (FExpr.read 0)], fenv := [] }

/-- Fresh state for `cfgRing2`. -/
def stRing2 : RSt :=
  { nodes := [compInitNode, compInitNode], stack := [], cset := [] }

/-- A single computed node whose factory returns the constant 7. -/
def cfgConst : RCfg :=
  { defs := [NodeDef.compDef (FExpr.const 7)], fenv := [] }

/-- Fresh state for `cfgConst`. -/
def stConst : RSt :=
  { nodes := [compInitNode], stack := [], cset := [] }

end Sebulvents

namespace Sebulvents

/-- A node whose re-entrant read necessarily fails before mutating any
state: computed and effect nodes always, and signal nodes only while
their raw value is callable (a dirty non-callable signal read would
instead reset its own flag).  During a pure evaluation the raw values
never change, so this predicate is stable. -/
def ReentryBlocked (cfg : RCfg) (st : RSt) (i : Nat) : Prop :=
  match cfg.defs.get? i with
  | some NodeDef.sigDef => isCallable (currentOf st i) = true
  | _ => True

/-- Invariant maintained by evaluation over all-computed graphs,
starting from a fresh state: a node state exists exactly for each
definition, and every clean (non-dirty) node is fully evaluated
(`DoneNode`) with an integer cache. -/
def RInv (cfg : RCfg) (st : RSt) : Prop :=
  (∀ j, (getN st j).isSome = true ↔ j < cfg.defs.length) ∧
  (∀ j, j < cfg.defs.length → flagOf st j = false → DoneNode cfg st j) ∧
  (∀ j, j < cfg.defs.length → flagOf st j = false →
    ∃ r : Int, lastOf st j = some (RawV.conc r))

/-- Postcondition of a getter call on node `j` of an all-computed
graph: success restores the stack and the collection set exactly,
preserves the invariant, only clears flags, fully evaluates `j` and
returns an integer; failure is the circular-dependency error or the
out-of-fuel artifact of the embedding. -/
def GPost (cfg : RCfg) (st : RSt) (j : Nat) : Except RErr RawV × RSt → Prop
  | (Except.ok v, st2) =>
      RInv cfg st2 ∧ st2.stack = st.stack ∧ st2.cset = st.cset
      ∧ (∀ x, flagOf st x = false → flagOf st2 x = false)
      ∧ DoneNode cfg st2 j ∧ ∃ r : Int, v = RawV.conc r
  | (Except.error e, _) => e = RErr.dangerous ∨ e = RErr.fuelOut

/-- Postcondition of a factory-body evaluation over an all-computed
graph: success restores the stack and the collection set exactly,
preserves the invariant, only clears flags and fully evaluates every
node the body reads; failure is as in `GPost`. -/
def EPost (cfg : RCfg) (st : RSt) (e0 : FExpr) : Except RErr Int × RSt → Prop
  | (Except.ok _, st2) =>
      RInv cfg st2 ∧ st2.stack = st.stack ∧ st2.cset = st.cset
      ∧ (∀ x, flagOf st x = false → flagOf st2 x = false)
      ∧ (∀ k ∈ readsE e0, DoneNode cfg st2 k)
  | (Except.error e, _) => e = RErr.dangerous ∨ e = RErr.fuelOut

end Sebulvents

namespace Sebulvents

/-- Observations preserved by every step of a pure evaluation: raw
current values and node existence are untouched, and flags only move
from raised to cleared (never the other way: the immediate mark-dirty
call in `_collect` is dead during getters because the flag of the read
node was just reset). -/
def StObs (st st2 : RSt) : Prop :=
  (∀ x, currentOf st2 x = currentOf st x) ∧
  (∀ x, (getN st2 x).isSome = (getN st x).isSome) ∧
  (∀ x, flagOf st x = false → flagOf st2 x = false)

end Sebulvents

/-! ## Theorems -/

namespace Renpydux

/-- C1: the claim states that a dispatch finding no case, no matching
matcher and no default returns the original state unchanged and emits
a non-fatal warning rather than throwing.  The code instead throws:
the fall-through branch calls `warnings.warn(msg, action)` with the
action object in the category position, so CPython raises `TypeError`
and the trailing `return base_state` is never reached.  This theorem
evaluates the embedded reducer at such an input (empty builder, state
0, action type "X"). -/
theorem createdReducer_missing_handler_typeerror :
    createdReducer ActionReducerMapBuilder.empty (some (PyVal.int 0))
      (some { type := "X", payload := none }) =
      Except.error (PyErr.typeError "category must be a Warning subclass") := rfl

/-- C9: the claim states that when matchers match but no default is
registered, the matcher handlers run on the draft, the materialized
result is discarded, and the reducer returns the original base state.
The handlers do run and the result is discarded, but the fall-through
branch then raises `TypeError` from the malformed `warnings.warn`
call instead of returning the base state.  First conjunct: with a
matching matcher and no default the reducer raises.  Second conjunct:
the same matcher with an identity default shows the matcher handler
did run on the draft (its edit, 42, is materialized when the default
branch returns `new_state`). -/
theorem createdReducer_matcher_without_default :
    createdReducer builderMatcherOnly (some (PyVal.int 0))
      (some { type := "X", payload := none }) =
      Except.error (PyErr.typeError "category must be a Warning subclass")
  ∧ createdReducer builderMatcherDefault (some (PyVal.int 0))
      (some { type := "X", payload := none }) = Except.ok (PyVal.int 42) :=
  ⟨rfl, rfl⟩

/-- C2: `dispatch(action)` applies the reducer to the current state,
publishes the pair whose first component is the second component of
the previously published pair and whose second component is the next
state (each subscriber is called with exactly that pair), stores the
next state as current, and returns it. -/
theorem dispatch_publishes_previous_next :
    ∀ (σ : Type) (red : Option σ → Option ActionableStateItem → σ)
      (store : RenpyduxStore σ) (action : ActionableStateItem),
      (RenpyduxStore.dispatch red store action).1.state
          = red (some store.state) (some action)
    ∧ (RenpyduxStore.dispatch red store action).2.1
          = red (some store.state) (some action)
    ∧ (RenpyduxStore.dispatch red store action).1.event.value
          = (store.event.value.2, some (red (some store.state) (some action)))
    ∧ (RenpyduxStore.dispatch red store action).1.event.subscribers
          = store.event.subscribers
    ∧ (RenpyduxStore.dispatch red store action).2.2
          = store.event.subscribers.map
              (fun h => (h, (store.event.value.2, some (red (some store.state) (some action))))) := by
  intro σ red store action
  exact ⟨rfl, rfl, rfl, rfl, rfl⟩

/-- C5: the builder phase rules.  `add_case` succeeds exactly when no
matcher and no default are registered, the action type is non-empty
and the type is not yet registered; `add_matcher` succeeds exactly
when no default is registered (so it succeeds after `add_case`, the
fourth conjunct); `set_default_reducer` succeeds exactly when no
default is set, so calling it twice fails (fifth conjunct). -/
theorem builder_phase_rules :
    ∀ (b : ActionReducerMapBuilder) (a : ActionableStateItem)
      (h hm hd hd2 : Handler) (m : ActionableStateItem → Bool),
      (exOk (b.add_case a h) = true ↔
        (b.matchers_map = [] ∧ b.default_reducer = none ∧ a.type ≠ "" ∧
          alookup a.type b.actions_map = none))
    ∧ (exOk (b.add_matcher m hm) = true ↔ b.default_reducer = none)
    ∧ (exOk (b.set_default_reducer hd) = true ↔ b.default_reducer = none)
    ∧ (∀ b2, b.add_case a h = Except.ok b2 → exOk (b2.add_matcher m hm) = true)
    ∧ (∀ b2, b.set_default_reducer hd = Except.ok b2 →
        exOk (b2.set_default_reducer hd2) = false) := by
  intro b a h hm hd hd2 m
  refine ⟨?_, ?_, ?_, ?_, ?_⟩
  · unfold ActionReducerMapBuilder.add_case
    constructor
    · intro hok
      split_ifs at hok with h1 h2 h3 h4
      · simp [exOk] at hok
      · simp [exOk] at hok
      · simp [exOk] at hok
      · simp [exOk] at hok
      · exact ⟨List.length_eq_zero.mp (Nat.eq_zero_of_not_pos h1),
               Option.not_isSome_iff_eq_none.mp h2, h3,
               Option.not_isSome_iff_eq_none.mp h4⟩
    · rintro ⟨m0, d0, t0, l0⟩
      simp [m0, d0, t0, l0, exOk]
  · unfold ActionReducerMapBuilder.add_matcher
    constructor
    · intro hok
      split_ifs at hok with h1
      · simp [exOk] at hok
      · exact Option.not_isSome_iff_eq_none.mp h1
    · intro hd0
      simp [hd0, exOk]
  · unfold ActionReducerMapBuilder.set_default_reducer
    constructor
    · intro hok
      split_ifs at hok with h1
      · simp [exOk] at hok
      · exact Option.not_isSome_iff_eq_none.mp h1
    · intro hd0
      simp [hd0, exOk]
  · intro b2 heq
    unfold ActionReducerMapBuilder.add_case at heq
    split_ifs at heq with h1 h2 h3 h4 <;> try exact Except.noConfusion heq
    cases heq
    simp [ActionReducerMapBuilder.add_matcher, exOk,
          Option.not_isSome_iff_eq_none.mp h2]
  · intro b2 heq
    unfold ActionReducerMapBuilder.set_default_reducer at heq
    split_ifs at heq with h1 <;> try exact Except.noConfusion heq
    cases heq
    simp [ActionReducerMapBuilder.set_default_reducer, exOk]

/-- C5 witness: the phase rules applied at concrete inputs: on the
empty builder `add_case` succeeds, and after setting a default a
second `set_default_reducer` fails. -/
theorem builder_phase_rules_witness :
    exOk (ActionReducerMapBuilder.empty.add_case
      { type := "A", payload := none } (fun d _ => d)) = true
  ∧ exOk ((ActionReducerMapBuilder.empty.set_default_reducer (fun d _ => d)).bind
      (fun b2 => b2.set_default_reducer (fun d _ => d))) = false := by
  constructor
  · exact (builder_phase_rules ActionReducerMapBuilder.empty
      { type := "A", payload := none } (fun d _ => d) (fun d _ => d)
      (fun d _ => d) (fun d _ => d) (fun _ => true)).1.mpr
      ⟨rfl, rfl, by decide, rfl⟩
  · have h5 := (builder_phase_rules ActionReducerMapBuilder.empty
      { type := "A", payload := none } (fun d _ => d) (fun d _ => d)
      (fun d _ => d) (fun d _ => d) (fun _ => true)).2.2.2.2
    have hset : ActionReducerMapBuilder.empty.set_default_reducer (fun d _ => d) =
        Except.ok { ActionReducerMapBuilder.empty with default_reducer := some (fun d _ => d) } := rfl
    have h6 := h5 _ hset
    rw [hset]
    simpa [Except.bind] using h6

end Renpydux

namespace Renpydux

/-- Helper: a notification run whose pending handlers are all inert
invokes them all in order and leaves the subscriber set unchanged. -/
theorem notifyGo_all_pure (henv : Nat → HandlerAct) (origSize : Nat) :
    ∀ (remaining subs invoked : List Nat),
      subs.length = origSize →
      (∀ h ∈ remaining, henv h = HandlerAct.pure) →
      notifyGo henv origSize remaining subs invoked = (none, invoked ++ remaining, subs) := by
  intro remaining
  induction remaining with
  | nil =>
    intro subs invoked hlen _
    simp [notifyGo, hlen]
  | cons h rest ih =>
    intro subs invoked hlen hpure
    have hh : henv h = HandlerAct.pure := hpure h (List.mem_cons_self h rest)
    have happ : applyHandler henv subs h = subs := by simp [applyHandler, hh]
    have := ih subs (invoked ++ [h]) hlen (fun x hx => hpure x (List.mem_cons_of_mem h hx))
    simp [notifyGo, hlen, happ, this]

/-- Helper: when the handlers before position `k` are inert and the
handler at position `k` changes the size of the subscriber set, the
notification stops with RuntimeError right after invoking it. -/
theorem notifyGo_first_mutator (henv : Nat → HandlerAct) (origSize : Nat) :
    ∀ (k : Nat) (remaining subs invoked : List Nat) (h : Nat),
      subs.length = origSize →
      remaining.get? k = some h →
      (∀ j hj, j < k → remaining.get? j = some hj → henv hj = HandlerAct.pure) →
      (applyHandler henv subs h).length ≠ subs.length →
      notifyGo henv origSize remaining subs invoked =
        (some (PyErr.runtimeError "Set changed size during iteration"),
         invoked ++ remaining.take (k+1), applyHandler henv subs h) := by
  intro k
  induction k with
  | zero =>
    intro remaining subs invoked h hlen hget _ hmut
    cases remaining with
    | nil => exact absurd hget (by simp)
    | cons h0 rest =>
      have h00 : h0 = h := by simpa using hget
      subst h00
      have hmut2 : (applyHandler henv subs h0).length ≠ origSize := by
        rw [← hlen]; exact hmut
      have step1 : notifyGo henv origSize (h0 :: rest) subs invoked =
          notifyGo henv origSize rest (applyHandler henv subs h0) (invoked ++ [h0]) := by
        simp [notifyGo, hlen]
      have step2 : notifyGo henv origSize rest (applyHandler henv subs h0) (invoked ++ [h0]) =
          (some (PyErr.runtimeError "Set changed size during iteration"),
            invoked ++ [h0], applyHandler henv subs h0) := by
        rw [notifyGo.eq_def]
        simp [hmut2]
      rw [step1, step2]
      simp
  | succ k ih =>
    intro remaining subs invoked h hlen hget hpre hmut
    cases remaining with
    | nil => exact absurd hget (by simp)
    | cons h0 rest =>
      have hh0 : henv h0 = HandlerAct.pure := hpre 0 h0 (Nat.succ_pos k) (by simp)
      have happ : applyHandler henv subs h0 = subs := by simp [applyHandler, hh0]
      have hget2 : rest.get? k = some h := by simpa using hget
      have hpre2 : ∀ j hj, j < k → rest.get? j = some hj → henv hj = HandlerAct.pure := by
        intro j hj hjk hjget
        exact hpre (j+1) hj (Nat.succ_lt_succ hjk) (by simpa using hjget)
      have step1 : notifyGo henv origSize (h0 :: rest) subs invoked =
          notifyGo henv origSize rest subs (invoked ++ [h0]) := by
        simp [notifyGo, hlen, happ]
      have hrec := ih rest subs (invoked ++ [h0]) h hlen hget2 hpre2 hmut
      rw [step1, hrec]
      simp [List.take_cons]

/-- C6 counterexample: the claim states that `notify` invokes exactly
the handlers registered at call time, as a snapshot, unaffected by
subscriptions added during the notification.  The code iterates the
live subscriber set, so a handler that subscribes another handler
makes the next iterator step raise
`RuntimeError("Set changed size during iteration")`: with the single
registered handler 0 (which subscribes handler 1), `notify` raises
instead of returning normally after its snapshot. -/
theorem notify_mutating_handler_runtime_error :
    notify henvC6 [0] =
      (some (PyErr.runtimeError "Set changed size during iteration"), [0], [0, 1]) := rfl

/-- C6 amended: `notify` iterates the live subscriber set.  When no
handler invocation changes the set, exactly the handlers registered at
call time are invoked, in order, and notify returns normally; when the
handlers before position k are inert and the handler at position k
changes the size of the set, notify raises RuntimeError immediately
after invoking it, so no further handler is invoked. -/
theorem notify_live_iteration :
    ∀ (henv : Nat → HandlerAct) (subs : List Nat),
      ((∀ h ∈ subs, henv h = HandlerAct.pure) → notify henv subs = (none, subs, subs))
    ∧ (∀ k h, subs.get? k = some h →
        (∀ j hj, j < k → subs.get? j = some hj → henv hj = HandlerAct.pure) →
        (applyHandler henv subs h).length ≠ subs.length →
        notify henv subs =
          (some (PyErr.runtimeError "Set changed size during iteration"),
           subs.take (k+1), applyHandler henv subs h)) := by
  intro henv subs
  constructor
  · intro hpure
    have := notifyGo_all_pure henv subs.length subs subs [] rfl hpure
    simpa [notify] using this
  · intro k h hget hpre hmut
    have := notifyGo_first_mutator henv subs.length k subs subs [] h rfl hget hpre hmut
    simpa [notify] using this

/-- C6 witness: the amended statement applied at concrete inputs: two
inert handlers are both invoked and notify returns normally; and with
the mutating handler environment, handler 0 at position 0 changes the
set size, so notify raises and invokes only handler 0. -/
theorem notify_live_iteration_witness :
    notify (fun _ => HandlerAct.pure) [5, 7] = (none, [5, 7], [5, 7])
  ∧ notify henvC6 [0] =
      (some (PyErr.runtimeError "Set changed size during iteration"), [0], [0, 1]) := by
  constructor
  · exact (notify_live_iteration (fun _ => HandlerAct.pure) [5, 7]).1 (by intro h _; rfl)
  · have := (notify_live_iteration henvC6 [0]).2 0 0 rfl
      (by intro j hj hjk; exact absurd hjk (by simp))
      (by decide)
    simpa using this

end Renpydux

namespace Renpydux

/-- Helper: updating attribute `k` leaves a different attribute `nm`
unchanged (replacement form of `setattr`). -/
theorem alookup_map_update (k nm : String) (x : PyVal) (hne : k ≠ nm) :
    ∀ fields : List (String × PyVal),
      alookup nm (fields.map (fun p => if p.1 = k then (p.1, x) else p)) =
        alookup nm fields := by
  intro fields
  induction fields with
  | nil => rfl
  | cons p rest ih =>
    have hnk : ¬ (nm = k) := fun hcon => hne hcon.symm
    by_cases hpnm : p.1 = nm
    · have hpk : ¬ p.1 = k := by rw [hpnm]; exact hnk
      simp [alookup, hpk, hpnm, hnk]
    · by_cases hpk : p.1 = k
      · simp [alookup, hpk, hpnm, hne, ih]
      · simp [alookup, hpk, hpnm, ih]

/-- Helper: append form of the association lookup when the key is
absent on the left. -/
theorem alookup_append_of_none {B : Type} (nm : String) :
    ∀ (l1 l2 : List (String × B)), alookup nm l1 = none →
      alookup nm (l1 ++ l2) = alookup nm l2 := by
  intro l1
  induction l1 with
  | nil => intro l2 _; rfl
  | cons p rest ih =>
    intro l2 hnone
    by_cases hpnm : p.1 = nm
    · simp [alookup, hpnm] at hnone
    · simp [alookup, hpnm] at hnone ⊢
      exact ih l2 hnone

/-- Helper: replacing attribute `nm` makes later lookups of `nm` see
the new value. -/
theorem alookup_map_set (nm : String) (x : PyVal) :
    ∀ fields : List (String × PyVal), (alookup nm fields).isSome →
      alookup nm (fields.map (fun p => if p.1 = nm then (p.1, x) else p)) = some x := by
  intro fields
  induction fields with
  | nil => intro hsome; simp [alookup] at hsome
  | cons p rest ih =>
    intro hsome
    by_cases hpnm : p.1 = nm
    · simp [alookup, hpnm]
    · simp [alookup, hpnm] at hsome ⊢
      exact ih hsome

/-- Helper: `setattr` on a different attribute preserves `getattr`. -/
theorem getattr_setattr_ne (st : PyVal) (k nm : String) (x : PyVal) (hne : k ≠ nm) :
    getattrOpt (setattrPy st k x) nm = getattrOpt st nm := by
  cases st with
  | int n => rfl
  | obj fields =>
    simp only [setattrPy]
    split_ifs with hp
    · exact alookup_map_update k nm x hne fields
    · show alookup nm (fields ++ [(k, x)]) = alookup nm fields
      cases hl : alookup nm fields with
      | some v =>
        clear hp
        induction fields with
        | nil => simp [alookup] at hl
        | cons p rest ih =>
          by_cases hpnm : p.1 = nm
          · simp [alookup, hpnm] at hl ⊢; exact hl
          · simp [alookup, hpnm] at hl ⊢; exact ih hl
      | none =>
        rw [alookup_append_of_none nm fields [(k, x)] hl]
        simp [alookup, hne, hl]

/-- Helper: `setattr` on a present attribute makes `getattr` return the
new value. -/
theorem getattr_setattr_eq (st : PyVal) (nm : String) (x v : PyVal)
    (hv : getattrOpt st nm = some v) :
    getattrOpt (setattrPy st nm x) nm = some x := by
  cases st with
  | int n => simp [getattrOpt] at hv
  | obj fields =>
    have hsome : (alookup nm fields).isSome := by
      show (getattrOpt (PyVal.obj fields) nm).isSome
      rw [hv]; rfl
    simp only [setattrPy]
    rw [if_pos hsome]
    exact alookup_map_set nm x fields hsome

/-- Helper: one step of the combineReducers slice loop. -/
theorem applySlices_cons (p : String × (PyVal → ActionableStateItem → PyVal))
    (rest : List (String × (PyVal → ActionableStateItem → PyVal)))
    (st : PyVal) (a : ActionableStateItem) :
    applySlices (p :: rest) st a =
      applySlices rest
        (if p.1 = "root" then st
         else
           match getattrOpt st p.1 with
           | none => st
           | some sub => setattrPy st p.1 (p.2 sub a)) a := by
  by_cases hr : p.1 = "root"
  · simp [applySlices, hr]
  · cases hg : getattrOpt st p.1 <;> simp [applySlices, hr, hg]

/-- Helper: the slice loop does not touch attributes that are not
slice names. -/
theorem applySlices_preserves_absent (a : ActionableStateItem) :
    ∀ (slices : List (String × (PyVal → ActionableStateItem → PyVal))) (st : PyVal)
      (nm : String), nm ∉ slices.map Prod.fst →
      getattrOpt (applySlices slices st a) nm = getattrOpt st nm := by
  intro slices
  induction slices with
  | nil => intro st nm _; rfl
  | cons p rest ih =>
    intro st nm hnm
    have hne : p.1 ≠ nm := by
      intro hcon
      exact hnm (by simp [hcon])
    have hnm2 : nm ∉ rest.map Prod.fst := by
      intro hcon
      exact hnm (by simp [hcon])
    rw [applySlices_cons]
    by_cases hr : p.1 = "root"
    · simp only [hr, if_pos]
      exact ih st nm hnm2
    · simp only [hr, if_neg, ite_false]
      cases hg : getattrOpt st p.1 with
      | none => exact ih st nm hnm2
      | some sub =>
        rw [ih _ nm hnm2, getattr_setattr_ne st p.1 nm _ hne]

/-- Helper: with duplicate-free slice names, a present non-root slice
field of the result holds its reduced original value. -/
theorem applySlices_field (a : ActionableStateItem) :
    ∀ (slices : List (String × (PyVal → ActionableStateItem → PyVal))) (st : PyVal)
      (nm : String) (red : PyVal → ActionableStateItem → PyVal) (v : PyVal),
      (slices.map Prod.fst).Nodup → (nm, red) ∈ slices → nm ≠ "root" →
      getattrOpt st nm = some v →
      getattrOpt (applySlices slices st a) nm = some (red v a) := by
  intro slices
  induction slices with
  | nil => intro st nm red v _ hmem; simp at hmem
  | cons p rest ih =>
    intro st nm red v hnodup hmem hroot hv
    have hnodup2 : (rest.map Prod.fst).Nodup := (List.nodup_cons.mp (by simpa using hnodup)).2
    have hknotin : p.1 ∉ rest.map Prod.fst := (List.nodup_cons.mp (by simpa using hnodup)).1
    rw [applySlices_cons]
    rcases List.mem_cons.mp hmem with hhead | htail
    · have hp1 : p.1 = nm := by rw [← hhead]
      have hp2 : p.2 = red := by rw [← hhead]
      have hnin : nm ∉ rest.map Prod.fst := hp1 ▸ hknotin
      have hpr : ¬ p.1 = "root" := by rw [hp1]; exact hroot
      rw [if_neg hpr]
      simp only [hp1, hp2, hv]
      rw [applySlices_preserves_absent a rest _ nm hnin]
      exact getattr_setattr_eq st nm (red v a) v hv
    · have hne : p.1 ≠ nm := by
        intro hcon
        apply hknotin
        rw [hcon]
        exact List.mem_map.mpr ⟨(nm, red), htail, rfl⟩
      by_cases hr : p.1 = "root"
      · rw [if_pos hr]
        exact ih st nm red v hnodup2 htail hroot hv
      · rw [if_neg hr]
        cases hg : getattrOpt st p.1 with
        | none => exact ih st nm red v hnodup2 htail hroot hv
        | some sub =>
          have hv2 : getattrOpt (setattrPy st p.1 (p.2 sub a)) nm = some v := by
            rw [getattr_setattr_ne st p.1 nm _ hne]; exact hv
          exact ih _ nm red v hnodup2 htail hroot hv2

/-- C7 counterexample: the claim states that each non-root slice named
in the mapping is read off the state, reduced, and written back.  The
loop skips slices whose name is not an attribute of the state (the
`hasattr` guard): with the mapping naming only slice "a" and a state
without attribute "a", the slice reducer (which maps everything to 99)
is never applied and nothing is written, so the result has no
attribute "a" and equals the incoming state. -/
theorem combineReducers_skips_missing_slice :
    combineReducers slicesC7 (PyVal.obj [("b", PyVal.int 1)]) { type := "X", payload := none } =
      PyVal.obj [("b", PyVal.int 1)]
  ∧ getattrOpt
      (combineReducers slicesC7 (PyVal.obj [("b", PyVal.int 1)]) { type := "X", payload := none })
      "a" = none :=
  ⟨rfl, rfl⟩

/-- C7 amended: for a mapping with duplicate-free names, each
non-"root" slice named in the mapping whose field is present on the
incoming state is read, reduced, and written back onto the updated
state; then the whole combined reduction returns, within the same
call, the "root" reducer applied to the updated state when a "root"
entry exists, else the updated state itself. -/
theorem combineReducers_slices_then_root :
    ∀ (slices : List (String × (PyVal → ActionableStateItem → PyVal)))
      (state : PyVal) (action : ActionableStateItem),
      (slices.map Prod.fst).Nodup →
      (combineReducers slices state action =
        (match alookup "root" slices with
         | some root => root (applySlices slices state action) action
         | none => applySlices slices state action))
    ∧ (∀ nm red, (nm, red) ∈ slices → nm ≠ "root" →
        ∀ v, getattrOpt state nm = some v →
          getattrOpt (applySlices slices state action) nm = some (red v action)) := by
  intro slices state action hnodup
  constructor
  · rfl
  · intro nm red hmem hroot v hv
    exact applySlices_field action slices state nm red v hnodup hmem hroot hv

/-- C7 witness: the amended statement at a concrete input: slices
"hp" (subtract 1) and "root", on a state with field "hp" = 3; the
"hp" field of the loop result is 2. -/
theorem combineReducers_slices_then_root_witness :
    getattrOpt
      (applySlices
        [("hp", fun sub _ => match sub with | PyVal.int n => PyVal.int (n - 1) | x => x),
         ("root", fun st _ => st)]
        (PyVal.obj [("hp", PyVal.int 3)]) { type := "X", payload := none })
      "hp" = some (PyVal.int 2) := by
  have h := (combineReducers_slices_then_root
    [("hp", fun sub _ => match sub with | PyVal.int n => PyVal.int (n - 1) | x => x),
     ("root", fun st _ => st)]
    (PyVal.obj [("hp", PyVal.int 3)]) { type := "X", payload := none }
    (by simp)).2 "hp"
    (fun sub _ => match sub with | PyVal.int n => PyVal.int (n - 1) | x => x)
    (by simp) (by simp) (PyVal.int 3) rfl
  simpa using h

end Renpydux

namespace Sebulvents

/-- Helper: the constructor stores the initial value and makes it
current exactly when it is not None. -/
theorem init_fields (v : Option RawV) :
    (SignalContext.init v).initial = v
  ∧ (SignalContext.init v).current = (if v = none then none else v) := by
  unfold SignalContext.init
  split_ifs with h1 h2 <;> simp_all

/-- Helper: when the (sentinel-substituted) value equals the current
raw value, the setter short-circuits. -/
theorem setter_eq_noop (s : SignalContext) (v : Option RawV)
    (hc : s.current = (if v = some RawV.defaultSym then s.initial else v)) :
    SignalContext.setter s v = (s, false) := by
  unfold SignalContext.setter
  dsimp only
  rw [if_pos hc]

/-- Helper: when the (sentinel-substituted) value differs from the
current raw value, the setter stores it and keeps the initial value. -/
theorem setter_ne_char (s : SignalContext) (v : Option RawV)
    (hc : ¬ s.current = (if v = some RawV.defaultSym then s.initial else v)) :
    (SignalContext.setter s v).1.current = (if v = some RawV.defaultSym then s.initial else v)
  ∧ (SignalContext.setter s v).1.initial = s.initial := by
  unfold SignalContext.setter
  dsimp only
  rw [if_neg hc]
  split_ifs <;> exact ⟨rfl, rfl⟩

/-- Helper: the setter never changes the initial value. -/
theorem setter_preserves_initial (s : SignalContext) (v : Option RawV) :
    ((SignalContext.setter s v).1).initial = s.initial := by
  by_cases hc : s.current = (if v = some RawV.defaultSym then s.initial else v)
  · rw [setter_eq_noop s v hc]
  · exact (setter_ne_char s v hc).2

/-- Helper: the setter preserves the sentinel invariant. -/
theorem setter_preserves_inv (t : SignalContext) (v : Option RawV)
    (hInv : SigInv t) : SigInv (SignalContext.setter t v).1 := by
  by_cases hc : t.current = (if v = some RawV.defaultSym then t.initial else v)
  · rw [setter_eq_noop t v hc]; exact hInv
  · rcases setter_ne_char t v hc with ⟨hcur1, hini1⟩
    intro hcur
    rw [hini1]
    rw [hcur1] at hcur
    by_cases hd : v = some RawV.defaultSym
    · rw [if_pos hd] at hcur; exact hcur
    · rw [if_neg hd] at hcur; exact absurd hcur hd

/-- Helper: the recompute phase of the getter touches only the cache. -/
theorem getterRecompute_preserves (s : SignalContext) (out : FactOutcome) :
    ((SignalContext.getterRecompute s out).2).current = s.current
  ∧ ((SignalContext.getterRecompute s out).2).initial = s.initial := by
  unfold SignalContext.getterRecompute
  split_ifs <;> cases out <;> simp

/-- Helper: the getter never changes the current or the initial
value. -/
theorem getter_preserves (s : SignalContext) (out : FactOutcome) :
    ((SignalContext.getter s out).2).current = s.current
  ∧ ((SignalContext.getter s out).2).initial = s.initial := by
  unfold SignalContext.getter
  rcases hrec : SignalContext.getterRecompute s out with ⟨e, s1⟩
  have hc : s1.current = s.current := by
    have h0 := (getterRecompute_preserves s out).1
    rw [hrec] at h0
    exact h0
  have hi : s1.initial = s.initial := by
    have h0 := (getterRecompute_preserves s out).2
    rw [hrec] at h0
    exact h0
  cases e with
  | error e0 => simpa using ⟨hc, hi⟩
  | ok u => cases hl : s1.last <;> simp_all

/-- Helper: every signal state reachable through the public interface
satisfies the sentinel invariant `SigInv`. -/
theorem sig_reachable_inv : ∀ s, SigReachable s → SigInv s := by
  intro s h
  induction h with
  | init v =>
    intro hcur
    rcases init_fields v with ⟨hi, hc⟩
    rw [hc] at hcur
    rw [hi]
    by_cases h0 : v = none
    · rw [if_pos h0] at hcur
      simp at hcur
    · rw [if_neg h0] at hcur
      exact hcur
  | set s v _ ih => exact setter_preserves_inv s v ih
  | get s out _ ih =>
    intro hcur
    rw [(getter_preserves s out).1] at hcur
    rw [(getter_preserves s out).2]
    exact ih hcur
  | reset s _ ih =>
    unfold SignalContext.resetOp
    split_ifs with h0
    · exact setter_preserves_inv s s.initial ih
    · exact ih
  | save s out _ ih =>
    unfold SignalContext.saveOp
    rcases hg : SignalContext.getter s out with ⟨e, s1⟩
    have hc : s1.current = s.current := by
      have h0 := (getter_preserves s out).1
      rw [hg] at h0
      exact h0
    have hi : s1.initial = s.initial := by
      have h0 := (getter_preserves s out).2
      rw [hg] at h0
      exact h0
    have hInv1 : SigInv s1 := by
      intro hcur
      rw [hi]
      exact ih (by rw [← hc]; exact hcur)
    cases e with
    | error e0 => exact hInv1
    | ok v => exact setter_preserves_inv s1 v hInv1
  | dispose s _ _ =>
    intro hcur
    simp [SignalContext.dispose] at hcur

/-- Helper: under the sentinel invariant, setting a value equal to the
current raw value short-circuits: no state change, no dirty marking,
no notification. -/
theorem setter_noop (s : SignalContext) (v : Option RawV)
    (hInv : SigInv s) (hcur : s.current = v) :
    SignalContext.setter s v = (s, false) := by
  apply setter_eq_noop
  by_cases hd : v = some RawV.defaultSym
  · have hini : s.initial = some RawV.defaultSym := hInv (by rw [hcur, hd])
    rw [if_pos hd, hini, ← hd]
    exact hcur
  · rw [if_neg hd]
    exact hcur

/-- Helper: a second setter call with the same argument is a no-op. -/
theorem setter_stable (s : SignalContext) (v : Option RawV) (hInv : SigInv s) :
    SignalContext.setter (SignalContext.setter s v).1 v = ((SignalContext.setter s v).1, false) := by
  by_cases hc : s.current = (if v = some RawV.defaultSym then s.initial else v)
  · have h1 := setter_eq_noop s v hc
    rw [h1]
    exact h1
  · rcases setter_ne_char s v hc with ⟨hcur1, hini1⟩
    apply setter_eq_noop
    rw [hini1]
    exact hcur1

/-- Helper: iterating the setter from a state it fixes produces no
notifications. -/
theorem setterIter_fixed (v : Option RawV) :
    ∀ (n : Nat) (s : SignalContext), SignalContext.setter s v = (s, false) →
      setterIter s v n = (s, 0) := by
  intro n
  induction n with
  | zero => intro s _; rfl
  | succ n ih =>
    intro s hfix
    simp [setterIter, hfix, ih s hfix]

/-- C3: setting a value equal by value equality to the current raw
value of a reachable signal is a no-op (the state, including the dirty
flag, is unchanged and dependents are not notified); and any sequence
of `n` repeated `set(v)` calls with the same value notifies dependents
at most once in total, so dependents recompute at most once across the
whole sequence rather than once per call. -/
theorem signal_set_same_value_noop :
    ∀ (s : SignalContext) (v : Option RawV) (n : Nat), SigReachable s →
      (s.current = v → SignalContext.setter s v = (s, false))
    ∧ (setterIter s v n).2 ≤ 1 := by
  intro s v n hreach
  have hInv : SigInv s := sig_reachable_inv s hreach
  refine ⟨setter_noop s v hInv, ?_⟩
  cases n with
  | zero => simp [setterIter]
  | succ m =>
    rcases hset : SignalContext.setter s v with ⟨s1, b⟩
    have hstable : SignalContext.setter s1 v = (s1, false) := by
      have := setter_stable s v hInv
      rw [hset] at this
      exact this
    have hiter : setterIter s1 v m = (s1, 0) := setterIter_fixed v m s1 hstable
    simp [setterIter, hset, hiter]
    cases b <;> simp

/-- C3 witness: on the signal freshly created with initial value 1,
setting 1 again is a no-op, and three repeated sets notify at most
once. -/
theorem signal_set_same_value_noop_witness :
    SignalContext.setter (SignalContext.init (some (RawV.conc 1))) (some (RawV.conc 1)) =
      (SignalContext.init (some (RawV.conc 1)), false)
  ∧ (setterIter (SignalContext.init (some (RawV.conc 1))) (some (RawV.conc 1)) 3).2 ≤ 1 := by
  have h := signal_set_same_value_noop (SignalContext.init (some (RawV.conc 1)))
    (some (RawV.conc 1)) 3 (SigReachable.init (some (RawV.conc 1)))
  exact ⟨h.1 rfl, h.2⟩

/-- C10: a signal can never yield None at its public interface.  The
getter returns successfully only with a non-None value (first
conjunct) and raises the unresolved-value error whenever the cache is
None after the recompute phase (second conjunct); `set(None)` on a
signal whose current raw value is None short-circuits as an unchanged
value (third conjunct); and a signal created with initial value None
reads as the unresolved-value error (fourth conjunct). -/
theorem signal_never_yields_none :
    ∀ (s : SignalContext) (out : FactOutcome),
      (∀ v, (SignalContext.getter s out).1 = Except.ok v → v.isSome = true)
    ∧ (∀ s1, SignalContext.getterRecompute s out = (Except.ok (), s1) → s1.last = none →
        (SignalContext.getter s out).1 = Except.error GetErr.unresolved)
    ∧ (s.current = none → SignalContext.setter s none = (s, false))
    ∧ (SignalContext.getter (SignalContext.init none) out).1 = Except.error GetErr.unresolved := by
  intro s out
  refine ⟨?_, ?_, ?_, ?_⟩
  · intro v hok
    unfold SignalContext.getter at hok
    rcases hrec : SignalContext.getterRecompute s out with ⟨e, s1⟩
    rw [hrec] at hok
    cases e with
    | error e0 => simp at hok
    | ok u =>
      cases hl : s1.last with
      | none => simp [hl] at hok
      | some w =>
        simp [hl] at hok
        rw [← hok]
        rfl
  · intro s1 hrec hnone
    unfold SignalContext.getter
    rw [hrec]
    simp [hnone]
  · intro hcur
    unfold SignalContext.setter
    simp [hcur]
  · rfl

/-- C10 witness: the statements applied at concrete signals: a signal
created with value 2 reads back a non-None value; the fresh signal
created with None has a None cache after the (skipped) recompute phase
and its read raises the unresolved error; and `set(None)` on it is a
no-op. -/
theorem signal_never_yields_none_witness :
    (some (RawV.conc 2)).isSome = true
  ∧ (SignalContext.getter (SignalContext.init none) (FactOutcome.val none)).1 =
      Except.error GetErr.unresolved
  ∧ SignalContext.setter (SignalContext.init none) none = (SignalContext.init none, false) := by
  refine ⟨?_, ?_, ?_⟩
  · exact (signal_never_yields_none (SignalContext.init (some (RawV.conc 2)))
      (FactOutcome.val none)).1 (some (RawV.conc 2)) rfl
  · exact (signal_never_yields_none (SignalContext.init none)
      (FactOutcome.val none)).2.1 (SignalContext.init none) rfl rfl
  · exact (signal_never_yields_none (SignalContext.init none)
      (FactOutcome.val none)).2.2.1 rfl

end Sebulvents

namespace Sebulvents

/-- Helper: modifying node `i` does not change other node slots. -/
theorem getN_modifyN_ne (st : RSt) (i : Nat) (f : NSt → NSt) (j : Nat) (h : j ≠ i) :
    getN (modifyN st i f) j = getN st j := by
  unfold modifyN getN
  cases hnd : st.nodes.get? i with
  | none => rfl
  | some nd => exact List.get?_set_ne _ _ (Ne.symm h)

/-- Helper: modifying node `i` maps its slot. -/
theorem getN_modifyN_self (st : RSt) (i : Nat) (f : NSt → NSt) :
    getN (modifyN st i f) i = (getN st i).map f := by
  unfold modifyN getN
  cases hnd : st.nodes.get? i with
  | none =>
    simp only [hnd, Option.map_none']
  | some nd =>
    obtain ⟨hlt, _⟩ := List.get?_eq_some.mp hnd
    simp only [hnd, Option.map_some']
    exact List.get?_set_eq_of_lt _ hlt

/-- Helper: modifying a node touches neither the stack nor the set. -/
theorem modifyN_stack (st : RSt) (i : Nat) (f : NSt → NSt) :
    (modifyN st i f).stack = st.stack ∧ (modifyN st i f).cset = st.cset := by
  unfold modifyN
  cases st.nodes.get? i <;> exact ⟨rfl, rfl⟩

/-- Helper: a node update that keeps the flag, current and last fields
preserves those observations for every node. -/
theorem modifyN_preserves (st : RSt) (i : Nat) (f : NSt → NSt) (j : Nat)
    (hf : ∀ nd, (f nd).flag = nd.flag ∧ (f nd).current = nd.current ∧ (f nd).last = nd.last) :
    flagOf (modifyN st i f) j = flagOf st j
  ∧ currentOf (modifyN st i f) j = currentOf st j
  ∧ lastOf (modifyN st i f) j = lastOf st j
  ∧ (getN (modifyN st i f) j).isSome = (getN st j).isSome := by
  by_cases h : j = i
  · subst h
    have hm := getN_modifyN_self st j f
    unfold flagOf currentOf lastOf
    rw [hm]
    cases getN st j with
    | none => simp
    | some nd => simp [(hf nd).1, (hf nd).2.1, (hf nd).2.2]
  · unfold flagOf currentOf lastOf
    rw [getN_modifyN_ne st i f j h]
    exact ⟨rfl, rfl, rfl, rfl⟩

/-- Helper: unsubscribing an edge changes only subscriber lists. -/
theorem removeSubEdge_preserves (st : RSt) (d i j : Nat) :
    (removeSubEdge st d i).stack = st.stack ∧ (removeSubEdge st d i).cset = st.cset
  ∧ flagOf (removeSubEdge st d i) j = flagOf st j
  ∧ currentOf (removeSubEdge st d i) j = currentOf st j
  ∧ lastOf (removeSubEdge st d i) j = lastOf st j
  ∧ (getN (removeSubEdge st d i) j).isSome = (getN st j).isSome := by
  unfold removeSubEdge
  refine ⟨(modifyN_stack st d _).1, (modifyN_stack st d _).2, ?_⟩
  exact modifyN_preserves st d _ j (fun nd => ⟨rfl, rfl, rfl⟩)

/-- Helper: the unsubscription fold changes only subscriber lists. -/
theorem foldl_removeSub_preserves (i : Nat) :
    ∀ (l : List Nat) (st : RSt) (j : Nat),
      (l.foldl (fun acc d => removeSubEdge acc d i) st).stack = st.stack
    ∧ (l.foldl (fun acc d => removeSubEdge acc d i) st).cset = st.cset
    ∧ flagOf (l.foldl (fun acc d => removeSubEdge acc d i) st) j = flagOf st j
    ∧ currentOf (l.foldl (fun acc d => removeSubEdge acc d i) st) j = currentOf st j
    ∧ lastOf (l.foldl (fun acc d => removeSubEdge acc d i) st) j = lastOf st j
    ∧ ((getN (l.foldl (fun acc d => removeSubEdge acc d i) st) j).isSome
        = (getN st j).isSome) := by
  intro l
  induction l with
  | nil => intro st j; exact ⟨rfl, rfl, rfl, rfl, rfl, rfl⟩
  | cons d rest ih =>
    intro st j
    have h1 := removeSubEdge_preserves st d i j
    have h2 := ih (removeSubEdge st d i) j
    simp only [List.foldl_cons]
    exact ⟨h2.1.trans h1.1, h2.2.1.trans h1.2.1, h2.2.2.1.trans h1.2.2.1,
           h2.2.2.2.1.trans h1.2.2.2.1, h2.2.2.2.2.1.trans h1.2.2.2.2.1,
           h2.2.2.2.2.2.trans h1.2.2.2.2.2⟩

/-- Helper: clearing dependencies changes only edge and subscriber
lists. -/
theorem clearDependencies_preserves (st : RSt) (i j : Nat) :
    (clearDependencies st i).stack = st.stack ∧ (clearDependencies st i).cset = st.cset
  ∧ flagOf (clearDependencies st i) j = flagOf st j
  ∧ currentOf (clearDependencies st i) j = currentOf st j
  ∧ lastOf (clearDependencies st i) j = lastOf st j
  ∧ (getN (clearDependencies st i) j).isSome = (getN st j).isSome := by
  unfold clearDependencies
  cases hnd : getN st i with
  | none => exact ⟨rfl, rfl, rfl, rfl, rfl, rfl⟩
  | some nd =>
    have h1 := foldl_removeSub_preserves i nd.deps st j
    set st1 := nd.deps.foldl (fun acc d => removeSubEdge acc d i) st with hst1
    have h2 := modifyN_preserves st1 i (fun n2 => { n2 with deps := [] }) j
      (fun n2 => ⟨rfl, rfl, rfl⟩)
    have h3 := modifyN_stack st1 i (fun n2 => { n2 with deps := [] })
    exact ⟨h3.1.trans h1.1, h3.2.trans h1.2.1, h2.1.trans h1.2.2.1,
           h2.2.1.trans h1.2.2.2.1, h2.2.2.1.trans h1.2.2.2.2.1,
           h2.2.2.2.trans h1.2.2.2.2.2⟩

/-- Helper: begin collection succeeds exactly on nodes not being
evaluated, pushing them on the stack and into the set. -/
theorem beginCollection_spec (st : RSt) (i : Nat) :
    (i ∈ st.cset → beginCollection st i = (Except.error RErr.dangerous, st))
  ∧ (i ∉ st.cset → beginCollection st i =
      (Except.ok (), { st with stack := i :: st.stack, cset := i :: st.cset })) := by
  unfold beginCollection
  constructor <;> intro h <;> simp [h]

/-- Helper: end collection never changes the nodes, removes `i` from
the set and pops the stack when possible. -/
theorem endCollection_nodes (st : RSt) (i : Nat) :
    (endCollection st i).2.nodes = st.nodes := by
  unfold endCollection
  dsimp only
  split
  · rfl
  · split_ifs <;> rfl

end Sebulvents

namespace Sebulvents

/-- Helper: reading the flag through a known node state. -/
theorem flagOf_eq (st : RSt) (i : Nat) (nd : NSt) (h : getN st i = some nd) :
    flagOf st i = nd.flag := by
  unfold flagOf
  rw [h]
  rfl

/-- Helper: reading the cache through a known node state. -/
theorem lastOf_eq (st : RSt) (i : Nat) (nd : NSt) (h : getN st i = some nd) :
    lastOf st i = nd.last := by
  unfold lastOf
  rw [h]
  rfl

/-- Helper: reading the raw value through a known node state. -/
theorem currentOf_eq (st : RSt) (i : Nat) (nd : NSt) (h : getN st i = some nd) :
    currentOf st i = nd.current := by
  unfold currentOf
  rw [h]
  rfl

/-- Helper: `StObs` is reflexive. -/
theorem StObs.refl (st : RSt) : StObs st st :=
  ⟨fun _ => rfl, fun _ => rfl, fun _ h => h⟩

/-- Helper: `StObs` is transitive. -/
theorem StObs.trans {st1 st2 st3 : RSt} (h1 : StObs st1 st2) (h2 : StObs st2 st3) :
    StObs st1 st3 :=
  ⟨fun x => (h2.1 x).trans (h1.1 x),
   fun x => (h2.2.1 x).trans (h1.2.1 x),
   fun x hx => h2.2.2 x (h1.2.2 x hx)⟩

/-- Helper: `ReentryBlocked` depends only on the raw current value. -/
theorem reentryBlocked_of_obs {cfg : RCfg} {st st2 : RSt} {i : Nat}
    (hobs : StObs st st2) (h : ReentryBlocked cfg st i) : ReentryBlocked cfg st2 i := by
  unfold ReentryBlocked at h ⊢
  cases hd : cfg.defs.get? i with
  | none => trivial
  | some d =>
    cases d with
    | sigDef =>
      rw [hd] at h
      rw [hobs.1 i]
      exact h
    | compDef fac => trivial
    | effDef body => trivial

/-- Helper: setting a flag to false. -/
theorem modifyN_setflag_false (st : RSt) (i j : Nat) :
    currentOf (modifyN st i (fun n2 => { n2 with flag := false })) j = currentOf st j
  ∧ lastOf (modifyN st i (fun n2 => { n2 with flag := false })) j = lastOf st j
  ∧ (getN (modifyN st i (fun n2 => { n2 with flag := false })) j).isSome = (getN st j).isSome
  ∧ (j ≠ i → flagOf (modifyN st i (fun n2 => { n2 with flag := false })) j = flagOf st j)
  ∧ ((getN st i).isSome = true →
      flagOf (modifyN st i (fun n2 => { n2 with flag := false })) i = false) := by
  refine ⟨?_, ?_, ?_, ?_, ?_⟩
  · by_cases h : j = i
    · subst h
      unfold currentOf
      rw [getN_modifyN_self]
      cases getN st j <;> simp
    · unfold currentOf
      rw [getN_modifyN_ne st i _ j h]
  · by_cases h : j = i
    · subst h
      unfold lastOf
      rw [getN_modifyN_self]
      cases getN st j <;> simp
    · unfold lastOf
      rw [getN_modifyN_ne st i _ j h]
  · by_cases h : j = i
    · subst h
      rw [getN_modifyN_self]
      cases getN st j <;> simp
    · rw [getN_modifyN_ne st i _ j h]
  · intro h
    unfold flagOf
    rw [getN_modifyN_ne st i _ j h]
  · intro hex
    unfold flagOf
    rw [getN_modifyN_self]
    rcases Option.isSome_iff_exists.mp hex with ⟨nd, hnd⟩
    rw [hnd]
    rfl

/-- Helper: `_collect` on a node whose flag is down succeeds, touches
only edge and subscriber lists, and never runs the mark-dirty
cascade. -/
theorem collectN_not_dirty (fuel : Nat) (st : RSt) (i : Nat)
    (hflag : flagOf st i = false) :
    (collectN fuel st i).1 = Except.ok ()
  ∧ (collectN fuel st i).2.stack = st.stack
  ∧ (collectN fuel st i).2.cset = st.cset
  ∧ (∀ j, flagOf (collectN fuel st i).2 j = flagOf st j)
  ∧ (∀ j, currentOf (collectN fuel st i).2 j = currentOf st j)
  ∧ (∀ j, lastOf (collectN fuel st i).2 j = lastOf st j)
  ∧ (∀ j, (getN (collectN fuel st i).2 j).isSome = (getN st j).isSome) := by
  unfold collectN
  cases hstk : st.stack with
  | nil =>
    exact ⟨rfl, hstk, rfl, fun _ => rfl, fun _ => rfl, fun _ => rfl, fun _ => rfl⟩
  | cons top rest =>
    dsimp only
    have hd1 : ∀ nd : NSt, (({ nd with deps := setAdd nd.deps i } : NSt)).flag = nd.flag ∧
        (({ nd with deps := setAdd nd.deps i } : NSt)).current = nd.current ∧
        (({ nd with deps := setAdd nd.deps i } : NSt)).last = nd.last :=
      fun _ => ⟨rfl, rfl, rfl⟩
    have hd2 : ∀ nd : NSt, (({ nd with subs := setAdd nd.subs top } : NSt)).flag = nd.flag ∧
        (({ nd with subs := setAdd nd.subs top } : NSt)).current = nd.current ∧
        (({ nd with subs := setAdd nd.subs top } : NSt)).last = nd.last :=
      fun _ => ⟨rfl, rfl, rfl⟩
    set st1 := modifyN st top (fun nd => { nd with deps := setAdd nd.deps i }) with hst1
    set st2 := modifyN st1 i (fun nd => { nd with subs := setAdd nd.subs top }) with hst2
    have hp1 := fun j => modifyN_preserves st top
      (fun nd => { nd with deps := setAdd nd.deps i }) j hd1
    have hp2 := fun j => modifyN_preserves st1 i
      (fun nd => { nd with subs := setAdd nd.subs top }) j hd2
    have hs1 := modifyN_stack st top (fun nd => { nd with deps := setAdd nd.deps i })
    have hs2 := modifyN_stack st1 i (fun nd => { nd with subs := setAdd nd.subs top })
    have hflag2 : flagOf st2 i = false := by
      rw [(hp2 i).1, (hp1 i).1]
      exact hflag
    have hfin : (match getN st2 i with
        | none => (Except.ok (), st2)
        | some nd => if nd.flag then raiseFlagGo fuel st2 [top] else (Except.ok (), st2)) =
        (Except.ok (), st2) := by
      cases hnd : getN st2 i with
      | none => rfl
      | some nd =>
        have hnf : nd.flag = false := by
          rw [← flagOf_eq st2 i nd hnd]
          exact hflag2
        simp [hnf]
    rw [hfin]
    refine ⟨rfl, hs2.1.trans (hs1.1.trans hstk), hs2.2.trans hs1.2, ?_, ?_, ?_, ?_⟩
    · intro j; rw [(hp2 j).1, (hp1 j).1]
    · intro j; rw [(hp2 j).2.1, (hp1 j).2.1]
    · intro j; rw [(hp2 j).2.2.1, (hp1 j).2.2.1]
    · intro j; rw [(hp2 j).2.2.2, (hp1 j).2.2.2]

end Sebulvents

namespace Sebulvents

/-- Helper: full characterization of the shared getter tail: the flag
of the node is reset, `_collect` only does edge bookkeeping, and the
result is the cache or the unresolved-value error. -/
theorem getterTail_spec (fuel : Nat) (st : RSt) (i : Nat) (uerr : RErr)
    (hex : (getN st i).isSome = true) :
    (getterTail fuel st i uerr).1 =
      (match lastOf st i with
       | none => Except.error uerr
       | some v => Except.ok v)
  ∧ (getterTail fuel st i uerr).2.stack = st.stack
  ∧ (getterTail fuel st i uerr).2.cset = st.cset
  ∧ flagOf (getterTail fuel st i uerr).2 i = false
  ∧ (∀ j, j ≠ i → flagOf (getterTail fuel st i uerr).2 j = flagOf st j)
  ∧ (∀ j, currentOf (getterTail fuel st i uerr).2 j = currentOf st j)
  ∧ (∀ j, lastOf (getterTail fuel st i uerr).2 j = lastOf st j)
  ∧ (∀ j, (getN (getterTail fuel st i uerr).2 j).isSome = (getN st j).isSome) := by
  unfold getterTail
  dsimp only
  set st1 := modifyN st i (fun n2 => { n2 with flag := false }) with hst1
  have hmf := fun j => modifyN_setflag_false st i j
  have hflag1 : flagOf st1 i = false := (hmf 0).2.2.2.2 hex
  have hct := collectN_not_dirty fuel st1 i hflag1
  rcases hcoll : collectN fuel st1 i with ⟨ce, st2⟩
  rw [hcoll] at hct
  have hok : ce = Except.ok () := hct.1
  subst hok
  dsimp only
  have hsome2 : (getN st2 i).isSome = true := by
    rw [hct.2.2.2.2.2.2 i, (hmf i).2.2.1]
    exact hex
  rcases Option.isSome_iff_exists.mp hsome2 with ⟨nd2, hnd2⟩
  rw [hnd2]
  have hlast2 : nd2.last = lastOf st i := by
    rw [← lastOf_eq st2 i nd2 hnd2, hct.2.2.2.2.2.1 i, (hmf i).2.1]
  have hstk : st2.stack = st.stack := by
    rw [hct.2.1, hst1, (modifyN_stack st i _).1]
  have hcset : st2.cset = st.cset := by
    rw [hct.2.2.1, hst1, (modifyN_stack st i _).2]
  have hfl : flagOf st2 i = false := by
    rw [hct.2.2.2.1 i]
    exact hflag1
  have hflj : ∀ j, j ≠ i → flagOf st2 j = flagOf st j := by
    intro j hji
    rw [hct.2.2.2.1 j]
    exact (hmf j).2.2.2.1 hji
  have hcur : ∀ j, currentOf st2 j = currentOf st j := by
    intro j
    rw [hct.2.2.2.2.1 j]
    exact (hmf j).1
  have hlst : ∀ j, lastOf st2 j = lastOf st j := by
    intro j
    rw [hct.2.2.2.2.2.1 j]
    exact (hmf j).2.1
  have hsm : ∀ j, (getN st2 j).isSome = (getN st j).isSome := by
    intro j
    rw [hct.2.2.2.2.2.2 j]
    exact (hmf j).2.2.1
  obtain ⟨f0, d0, s0, c0, i0, l0⟩ := nd2
  rw [← hlast2]
  cases l0 with
  | none => exact ⟨rfl, hstk, hcset, hfl, hflj, hcur, hlst, hsm⟩
  | some v => exact ⟨rfl, hstk, hcset, hfl, hflj, hcur, hlst, hsm⟩

/-- Helper: end collection with a cons stack pops it and compares. -/
theorem endCollection_cons (st : RSt) (i top : Nat) (rest : List Nat)
    (hstk : st.stack = top :: rest) :
    endCollection st i =
      ((if top = i then Except.ok () else Except.error RErr.mismatch),
       { st with stack := rest, cset := st.cset.filter (fun y => y ≠ i) }) := by
  unfold endCollection
  dsimp only
  rw [hstk]
  dsimp only
  split_ifs <;> rfl

/-- Helper: end collection with an empty stack raises IndexError. -/
theorem endCollection_nil (st : RSt) (i : Nat) (hstk : st.stack = []) :
    endCollection st i =
      (Except.error RErr.indexErr, { st with cset := st.cset.filter (fun y => y ≠ i) }) := by
  unfold endCollection
  dsimp only
  rw [hstk]

/-- Helper: characterization of the post-try continuation of the
signal getter: current values, caches and node existence are
preserved; a successful return and the unresolved-value error imply
the flag was reset; any other error leaves every flag unchanged; and
collection-set members other than `i` survive. -/
theorem sigAfterTry_spec (fuel : Nat) (st : RSt) (i : Nat)
    (hex : (getN st i).isSome = true) :
    (∀ j, currentOf (sigAfterTry fuel st i).2 j = currentOf st j)
  ∧ (∀ j, lastOf (sigAfterTry fuel st i).2 j = lastOf st j)
  ∧ (∀ j, (getN (sigAfterTry fuel st i).2 j).isSome = (getN st j).isSome)
  ∧ (∀ v, (sigAfterTry fuel st i).1 = Except.ok v → flagOf (sigAfterTry fuel st i).2 i = false)
  ∧ ((sigAfterTry fuel st i).1 = Except.error RErr.unresolvedSignal →
      flagOf (sigAfterTry fuel st i).2 i = false)
  ∧ (∀ e, (sigAfterTry fuel st i).1 = Except.error e → e ≠ RErr.unresolvedSignal →
      ∀ j, flagOf (sigAfterTry fuel st i).2 j = flagOf st j)
  ∧ (∀ j, j ≠ i → flagOf (sigAfterTry fuel st i).2 j = flagOf st j)
  ∧ (∀ x, x ∈ st.cset → x ≠ i → x ∈ (sigAfterTry fuel st i).2.cset)
  ∧ (∀ x, flagOf st x = false → flagOf (sigAfterTry fuel st i).2 x = false) := by
  unfold sigAfterTry
  cases hstk : st.stack with
  | nil =>
    rw [endCollection_nil st i hstk]
    dsimp only
    refine ⟨fun _ => rfl, fun _ => rfl, fun _ => rfl, ?_, ?_, ?_, fun _ _ => rfl, ?_, fun _ hx => hx⟩
    · intro v hv; exact absurd hv (by simp)
    · intro hv; exact absurd hv (by simp)
    · intro e _ _ j; rfl
    · intro x hx hxi
      simp only [List.mem_filter]
      exact ⟨hx, by simp [hxi]⟩
  | cons top rest =>
    rw [endCollection_cons st i top rest hstk]
    by_cases htop : top = i
    · rw [if_pos htop]
      dsimp only
      set stm : RSt := { st with stack := rest, cset := st.cset.filter (fun y => y ≠ i) }
        with hstm
      have hexm : (getN stm i).isSome = true := hex
      have hgt := getterTail_spec fuel stm i RErr.unresolvedSignal hexm
      refine ⟨?_, ?_, ?_, ?_, ?_, ?_, ?_, ?_, ?_⟩
      · intro j; exact hgt.2.2.2.2.2.1 j
      · intro j; exact hgt.2.2.2.2.2.2.1 j
      · intro j; exact hgt.2.2.2.2.2.2.2 j
      · intro v _; exact hgt.2.2.2.1
      · intro _; exact hgt.2.2.2.1
      · intro e he hne
        exfalso
        rw [hgt.1] at he
        cases hl : lastOf stm i with
        | none =>
          rw [hl] at he
          simp at he
          exact hne he.symm
        | some v =>
          rw [hl] at he
          simp at he
      · intro j hji
        rw [hgt.2.2.2.2.1 j hji]
        rfl
      · intro x hx hxi
        rw [hgt.2.2.1]
        simp only [List.mem_filter]
        exact ⟨hx, by simp [hxi]⟩
      · intro x hx
        by_cases hxi : x = i
        · subst hxi
          exact hgt.2.2.2.1
        · rw [hgt.2.2.2.2.1 x hxi]
          exact hx
    · rw [if_neg htop]
      dsimp only
      refine ⟨fun _ => rfl, fun _ => rfl, fun _ => rfl, ?_, ?_, ?_, fun _ _ => rfl, ?_, fun _ hx => hx⟩
      · intro v hv; exact absurd hv (by simp)
      · intro hv
        exfalso
        simp at hv
      · intro e _ _ j; rfl
      · intro x hx hxi
        simp only [List.mem_filter]
        exact ⟨hx, by simp [hxi]⟩

end Sebulvents

namespace Sebulvents

/-- Helper: clearing dependencies preserves the evaluation
observations. -/
theorem stobs_clear (st : RSt) (i : Nat) : StObs st (clearDependencies st i) :=
  ⟨fun x => (clearDependencies_preserves st i x).2.2.2.1,
   fun x => (clearDependencies_preserves st i x).2.2.2.2.2,
   fun x hx => by
     rw [(clearDependencies_preserves st i x).2.2.1]
     exact hx⟩

/-- Helper: a state differing only in stack and set satisfies the
observations. -/
theorem stobs_nodes_eq {st st2 : RSt} (h : st2.nodes = st.nodes) : StObs st st2 := by
  refine ⟨?_, ?_, ?_⟩
  · intro x; unfold currentOf getN; rw [h]
  · intro x; unfold getN; rw [h]
  · intro x hx
    unfold flagOf getN at hx ⊢
    rw [h]
    exact hx

/-- Helper: setting the cache of a node preserves flags, raw values
and existence everywhere, and caches elsewhere. -/
theorem modifyN_setlast (st : RSt) (i : Nat) (v : Option RawV) (j : Nat) :
    flagOf (modifyN st i (fun n2 => { n2 with last := v })) j = flagOf st j
  ∧ currentOf (modifyN st i (fun n2 => { n2 with last := v })) j = currentOf st j
  ∧ (getN (modifyN st i (fun n2 => { n2 with last := v })) j).isSome = (getN st j).isSome
  ∧ (j ≠ i → lastOf (modifyN st i (fun n2 => { n2 with last := v })) j = lastOf st j) := by
  refine ⟨?_, ?_, ?_, ?_⟩
  · by_cases h : j = i
    · subst h
      unfold flagOf
      rw [getN_modifyN_self]
      cases getN st j <;> simp
    · unfold flagOf
      rw [getN_modifyN_ne st i _ j h]
  · by_cases h : j = i
    · subst h
      unfold currentOf
      rw [getN_modifyN_self]
      cases getN st j <;> simp
    · unfold currentOf
      rw [getN_modifyN_ne st i _ j h]
  · by_cases h : j = i
    · subst h
      rw [getN_modifyN_self]
      cases getN st j <;> simp
    · rw [getN_modifyN_ne st i _ j h]
  · intro h
    unfold lastOf
    rw [getN_modifyN_ne st i _ j h]

/-- Helper: setting the cache also preserves the observations. -/
theorem stobs_setlast (st : RSt) (i : Nat) (v : Option RawV) :
    StObs st (modifyN st i (fun n2 => { n2 with last := v })) :=
  ⟨fun x => (modifyN_setlast st i v x).2.1,
   fun x => (modifyN_setlast st i v x).2.2.1,
   fun x hx => by
     rw [(modifyN_setlast st i v x).1]
     exact hx⟩

/-- Helper: the getter tail preserves the observations. -/
theorem stobs_getterTail (fuel : Nat) (st : RSt) (i : Nat) (uerr : RErr)
    (hex : (getN st i).isSome = true) : StObs st (getterTail fuel st i uerr).2 := by
  have hgt := getterTail_spec fuel st i uerr hex
  refine ⟨fun x => hgt.2.2.2.2.2.1 x, fun x => hgt.2.2.2.2.2.2.2 x, ?_⟩
  intro x hx
  by_cases hxi : x = i
  · subst hxi
    exact hgt.2.2.2.1
  · rw [hgt.2.2.2.2.1 x hxi]
    exact hx

/-- Helper: a callable raw value is a factory reference. -/
theorem isCallable_exists (c : Option RawV) (h : isCallable c = true) :
    ∃ fid, c = some (RawV.func fid) := by
  cases c with
  | none => simp [isCallable] at h
  | some v =>
    cases v with
    | conc n => simp [isCallable] at h
    | func fid => exact ⟨fid, rfl⟩
    | defaultSym => simp [isCallable] at h

end Sebulvents

namespace Sebulvents

/-- Helper: end collection always leaves the set filtered. -/
theorem endCollection_cset (st : RSt) (i : Nat) :
    (endCollection st i).2.cset = st.cset.filter (fun y => y ≠ i) := by
  unfold endCollection
  dsimp only
  split
  · rfl
  · split_ifs <;> rfl

/-- Helper: the post-try continuation preserves the observations. -/
theorem stobs_sigAfterTry (fuel : Nat) (st : RSt) (i : Nat)
    (hex : (getN st i).isSome = true) : StObs st (sigAfterTry fuel st i).2 := by
  have hs := sigAfterTry_spec fuel st i hex
  exact ⟨fun x => hs.1 x, fun x => hs.2.2.1 x, fun x hx => hs.2.2.2.2.2.2.2.2 x hx⟩

/-- Helper: every evaluation step preserves the observations (raw
values and node existence unchanged, flags only cleared), and any
member of the collection set whose flag is raised and whose re-entrant
read is blocked stays in the set with its flag raised and its cache
untouched. -/
theorem preserve_all : ∀ fuel : Nat,
    (∀ cfg st j, StObs st (getNode fuel cfg st j).2
      ∧ (∀ i, i ∈ st.cset → flagOf st i = true → ReentryBlocked cfg st i →
          i ∈ (getNode fuel cfg st j).2.cset ∧ flagOf (getNode fuel cfg st j).2 i = true
          ∧ lastOf (getNode fuel cfg st j).2 i = lastOf st i))
  ∧ (∀ cfg st e, StObs st (evalE fuel cfg st e).2
      ∧ (∀ i, i ∈ st.cset → flagOf st i = true → ReentryBlocked cfg st i →
          i ∈ (evalE fuel cfg st e).2.cset ∧ flagOf (evalE fuel cfg st e).2 i = true
          ∧ lastOf (evalE fuel cfg st e).2 i = lastOf st i)) := by
  intro fuel
  induction fuel with
  | zero =>
    constructor
    · intro cfg st j
      exact ⟨StObs.refl st, fun i hi hf _ => ⟨hi, hf, rfl⟩⟩
    · intro cfg st e
      exact ⟨StObs.refl st, fun i hi hf _ => ⟨hi, hf, rfl⟩⟩
  | succ n ih =>
    constructor
    · intro cfg st j
      cases hdef : cfg.defs.get? j with
      | none =>
        have hred : getNode (n+1) cfg st j = (Except.error RErr.badNode, st) := by
          simp [getNode, ← List.get?_eq_getElem?, hdef]
        rw [hred]
        exact ⟨StObs.refl st, fun i hi hf _ => ⟨hi, hf, rfl⟩⟩
      | some d =>
        cases d with
        | effDef body =>
          have hred : getNode (n+1) cfg st j = (Except.error RErr.badNode, st) := by
            simp [getNode, ← List.get?_eq_getElem?, hdef]
          rw [hred]
          exact ⟨StObs.refl st, fun i hi hf _ => ⟨hi, hf, rfl⟩⟩
        | compDef fac =>
          cases hnd : getN st j with
          | none =>
            have hred : getNode (n+1) cfg st j = (Except.error RErr.badNode, st) := by
              simp [getNode, ← List.get?_eq_getElem?, hdef, hnd]
            rw [hred]
            exact ⟨StObs.refl st, fun i hi hf _ => ⟨hi, hf, rfl⟩⟩
          | some nd =>
            have hclear := fun x => clearDependencies_preserves st j x
            have hcset1 : (clearDependencies st j).cset = st.cset := (hclear 0).2.1
            have hflag1 : ∀ x, flagOf (clearDependencies st j) x = flagOf st x :=
              fun x => (hclear x).2.2.1
            have hlast1 : ∀ x, lastOf (clearDependencies st j) x = lastOf st x :=
              fun x => (hclear x).2.2.2.2.1
            by_cases hfl : nd.flag = true
            · have hred : getNode (n+1) cfg st j =
                  (match beginCollection (clearDependencies st j) j with
                   | (Except.error e, st2) => (Except.error e, st2)
                   | (Except.ok _, st2) =>
                     match evalE n cfg st2 fac with
                     | (Except.error e, st3) => (Except.error e, st3)
                     | (Except.ok r, st3) =>
                       match endCollection
                           (modifyN st3 j (fun n2 => { n2 with last := some (RawV.conc r) })) j with
                       | (Except.error e, st5) => (Except.error e, st5)
                       | (Except.ok _, st5) => getterTail (n+1) st5 j RErr.unresolvedComputed) := by
                simp [getNode, ← List.get?_eq_getElem?, hdef, hnd, hfl]
              rw [hred]
              set st1 := clearDependencies st j with hst1
              have hobs1 : StObs st st1 := stobs_clear st j
              by_cases hmem : j ∈ st1.cset
              · rw [(beginCollection_spec st1 j).1 hmem]
                dsimp only
                refine ⟨hobs1, ?_⟩
                intro i hi hf _
                exact ⟨by rw [hcset1]; exact hi, by rw [hflag1]; exact hf, hlast1 i⟩
              · rw [(beginCollection_spec st1 j).2 hmem]
                dsimp only
                set st2 : RSt := { st1 with stack := j :: st1.stack, cset := j :: st1.cset }
                  with hst2
                have hobs2 : StObs st st2 := StObs.trans hobs1 (stobs_nodes_eq rfl)
                have hcond2 : ∀ i, i ∈ st.cset → flagOf st i = true → ReentryBlocked cfg st i →
                    i ≠ j ∧ i ∈ st2.cset ∧ flagOf st2 i = true ∧ lastOf st2 i = lastOf st i := by
                  intro i hi hf _
                  have hij : i ≠ j := by
                    intro hcon
                    subst hcon
                    exact hmem (by rw [hcset1]; exact hi)
                  refine ⟨hij, List.mem_cons_of_mem j (by rw [hcset1]; exact hi), ?_, ?_⟩
                  · exact ((rfl : flagOf st2 i = flagOf st1 i).trans (hflag1 i)).trans hf
                  · exact (rfl : lastOf st2 i = lastOf st1 i).trans (hlast1 i)
                rcases hev : evalE n cfg st2 fac with ⟨er, st3⟩
                have hEV := ih.2 cfg st2 fac
                rw [hev] at hEV
                cases er with
                | error e0 =>
                  dsimp only
                  refine ⟨StObs.trans hobs2 hEV.1, ?_⟩
                  intro i hi hf hb
                  rcases hcond2 i hi hf hb with ⟨hij, hi2, hf2, hl2⟩
                  rcases hEV.2 i hi2 hf2 (reentryBlocked_of_obs hobs2 hb) with ⟨hi3, hf3, hl3⟩
                  exact ⟨hi3, hf3, hl3.trans hl2⟩
                | ok r =>
                  dsimp only
                  set st4 := modifyN st3 j (fun n2 => { n2 with last := some (RawV.conc r) })
                    with hst4
                  have hobs4 : StObs st st4 :=
                    StObs.trans (StObs.trans hobs2 hEV.1) (stobs_setlast st3 j _)
                  rcases hend : endCollection st4 j with ⟨endr, st5⟩
                  have hnodes5 : st5.nodes = st4.nodes := by
                    have h0 := endCollection_nodes st4 j
                    rw [hend] at h0
                    exact h0
                  have hcset5 : st5.cset = st4.cset.filter (fun y => y ≠ j) := by
                    have h0 := endCollection_cset st4 j
                    rw [hend] at h0
                    exact h0
                  have hobs5 : StObs st st5 := StObs.trans hobs4 (stobs_nodes_eq hnodes5)
                  have hcond5 : ∀ i, i ∈ st.cset → flagOf st i = true → ReentryBlocked cfg st i →
                      i ∈ st5.cset ∧ flagOf st5 i = true ∧ lastOf st5 i = lastOf st i := by
                    intro i hi hf hb
                    rcases hcond2 i hi hf hb with ⟨hij, hi2, hf2, hl2⟩
                    rcases hEV.2 i hi2 hf2 (reentryBlocked_of_obs hobs2 hb) with ⟨hi3, hf3, hl3⟩
                    have hi4 : i ∈ st4.cset := by
                      rw [(modifyN_stack st3 j _).2]
                      exact hi3
                    have hf4 : flagOf st4 i = true := by
                      rw [(modifyN_setlast st3 j _ i).1]
                      exact hf3
                    have hl4 : lastOf st4 i = lastOf st i := by
                      rw [(modifyN_setlast st3 j _ i).2.2.2 hij]
                      exact hl3.trans hl2
                    refine ⟨?_, ?_, ?_⟩
                    · rw [hcset5]
                      simp only [List.mem_filter]
                      exact ⟨hi4, by simp [hij]⟩
                    · calc flagOf st5 i = flagOf st4 i := by
                            unfold flagOf getN
                            rw [hnodes5]
                        _ = true := hf4
                    · calc lastOf st5 i = lastOf st4 i := by
                            unfold lastOf getN
                            rw [hnodes5]
                        _ = lastOf st i := hl4
                  cases endr with
                  | error e0 =>
                    dsimp only
                    exact ⟨hobs5, hcond5⟩
                  | ok _ =>
                    dsimp only
                    have hsome5 : (getN st5 j).isSome = true := by
                      rw [hobs5.2.1 j, hnd]
                      rfl
                    have hgt := getterTail_spec (n+1) st5 j RErr.unresolvedComputed hsome5
                    refine ⟨StObs.trans hobs5 (stobs_getterTail (n+1) st5 j _ hsome5), ?_⟩
                    intro i hi hf hb
                    rcases hcond2 i hi hf hb with ⟨hij, _, _, _⟩
                    rcases hcond5 i hi hf hb with ⟨hi5, hf5, hl5⟩
                    refine ⟨by rw [hgt.2.2.1]; exact hi5, ?_, ?_⟩
                    · rw [hgt.2.2.2.2.1 i hij]
                      exact hf5
                    · rw [hgt.2.2.2.2.2.2.1 i]
                      exact hl5
            · have hfl2 : nd.flag = false := by
                cases hq : nd.flag
                · rfl
                · exact absurd hq hfl
              have hred : getNode (n+1) cfg st j = getterTail (n+1) st j RErr.unresolvedComputed := by
                simp [getNode, ← List.get?_eq_getElem?, hdef, hnd, hfl2]
              rw [hred]
              have hsome : (getN st j).isSome = true := by rw [hnd]; rfl
              have hgt := getterTail_spec (n+1) st j RErr.unresolvedComputed hsome
              refine ⟨stobs_getterTail (n+1) st j _ hsome, ?_⟩
              intro i hi hf _
              have hij : i ≠ j := by
                intro hcon
                subst hcon
                rw [flagOf_eq st i nd hnd] at hf
                rw [hfl2] at hf
                exact Bool.noConfusion hf
              refine ⟨by rw [hgt.2.2.1]; exact hi, ?_, hgt.2.2.2.2.2.2.1 i⟩
              rw [hgt.2.2.2.2.1 i hij]
              exact hf
        | sigDef =>
          cases hnd : getN st j with
          | none =>
            have hred : getNode (n+1) cfg st j = (Except.error RErr.badNode, st) := by
              simp [getNode, ← List.get?_eq_getElem?, hdef, hnd]
            rw [hred]
            exact ⟨StObs.refl st, fun i hi hf _ => ⟨hi, hf, rfl⟩⟩
          | some nd =>
            have hclear := fun x => clearDependencies_preserves st j x
            have hcset1 : (clearDependencies st j).cset = st.cset := (hclear 0).2.1
            have hflag1 : ∀ x, flagOf (clearDependencies st j) x = flagOf st x :=
              fun x => (hclear x).2.2.1
            have hlast1 : ∀ x, lastOf (clearDependencies st j) x = lastOf st x :=
              fun x => (hclear x).2.2.2.2.1
            by_cases hb2 : (nd.flag && isCallable nd.current) = true
            · have hb2c : nd.flag = true ∧ isCallable nd.current = true := by
                constructor <;> simp_all
              have hfl : nd.flag = true := hb2c.1
              have hcal : isCallable nd.current = true := hb2c.2
              rcases isCallable_exists nd.current hcal with ⟨fid, hcur⟩
              cases hfe : cfg.fenv.get? fid with
              | none =>
                have hred : getNode (n+1) cfg st j =
                    (match beginCollection (clearDependencies st j) j with
                     | (Except.error e, st2) => (Except.error e, st2)
                     | (Except.ok _, st2) => (Except.error RErr.badNode, st2)) := by
                  simp [getNode, ← List.get?_eq_getElem?, hdef, hnd, hfl, hcur, isCallable, hfe]
                rw [hred]
                set st1 := clearDependencies st j with hst1
                have hobs1 : StObs st st1 := stobs_clear st j
                by_cases hmem : j ∈ st1.cset
                · rw [(beginCollection_spec st1 j).1 hmem]
                  dsimp only
                  refine ⟨hobs1, ?_⟩
                  intro i hi hf _
                  exact ⟨by rw [hcset1]; exact hi, by rw [hflag1]; exact hf, hlast1 i⟩
                · rw [(beginCollection_spec st1 j).2 hmem]
                  dsimp only
                  refine ⟨StObs.trans hobs1 (stobs_nodes_eq rfl), ?_⟩
                  intro i hi hf _
                  refine ⟨List.mem_cons_of_mem j (by rw [hcset1]; exact hi), ?_, ?_⟩
                  · exact ((rfl : flagOf _ i = flagOf st1 i).trans (hflag1 i)).trans hf
                  · exact (rfl : lastOf _ i = lastOf st1 i).trans (hlast1 i)
              | some fexpr =>
                have hred : getNode (n+1) cfg st j =
                    (match beginCollection (clearDependencies st j) j with
                     | (Except.error e, st2) => (Except.error e, st2)
                     | (Except.ok _, st2) =>
                       match evalE n cfg st2 fexpr with
                       | (Except.ok r, st3) =>
                         sigAfterTry (n+1)
                           (modifyN st3 j (fun n2 => { n2 with last := some (RawV.conc r) })) j
                       | (Except.error e, st3) =>
                         if isSigFamily e then sigAfterTry (n+1) st3 j
                         else (Except.error e, st3)) := by
                  simp [getNode, ← List.get?_eq_getElem?, hdef, hnd, hfl, hcur, isCallable, hfe]
                rw [hred]
                set st1 := clearDependencies st j with hst1
                have hobs1 : StObs st st1 := stobs_clear st j
                by_cases hmem : j ∈ st1.cset
                · rw [(beginCollection_spec st1 j).1 hmem]
                  dsimp only
                  refine ⟨hobs1, ?_⟩
                  intro i hi hf _
                  exact ⟨by rw [hcset1]; exact hi, by rw [hflag1]; exact hf, hlast1 i⟩
                · rw [(beginCollection_spec st1 j).2 hmem]
                  dsimp only
                  set st2 : RSt := { st1 with stack := j :: st1.stack, cset := j :: st1.cset }
                    with hst2
                  have hobs2 : StObs st st2 := StObs.trans hobs1 (stobs_nodes_eq rfl)
                  have hcond2 : ∀ i, i ∈ st.cset → flagOf st i = true → ReentryBlocked cfg st i →
                      i ≠ j ∧ i ∈ st2.cset ∧ flagOf st2 i = true ∧ lastOf st2 i = lastOf st i := by
                    intro i hi hf _
                    have hij : i ≠ j := by
                      intro hcon
                      subst hcon
                      exact hmem (by rw [hcset1]; exact hi)
                    refine ⟨hij, List.mem_cons_of_mem j (by rw [hcset1]; exact hi), ?_, ?_⟩
                    · exact ((rfl : flagOf st2 i = flagOf st1 i).trans (hflag1 i)).trans hf
                    · exact (rfl : lastOf st2 i = lastOf st1 i).trans (hlast1 i)
                  rcases hev : evalE n cfg st2 fexpr with ⟨er, st3⟩
                  have hEV := ih.2 cfg st2 fexpr
                  rw [hev] at hEV
                  have hafterCommon : ∀ (stx : RSt), StObs st stx →
                      (∀ i, i ∈ st.cset → flagOf st i = true → ReentryBlocked cfg st i →
                        i ≠ j ∧ i ∈ stx.cset ∧ flagOf stx i = true ∧ lastOf stx i = lastOf st i) →
                      StObs st (sigAfterTry (n+1) stx j).2
                      ∧ (∀ i, i ∈ st.cset → flagOf st i = true → ReentryBlocked cfg st i →
                          i ∈ (sigAfterTry (n+1) stx j).2.cset
                          ∧ flagOf (sigAfterTry (n+1) stx j).2 i = true
                          ∧ lastOf (sigAfterTry (n+1) stx j).2 i = lastOf st i) := by
                    intro stx hobsx hcondx
                    have hsomex : (getN stx j).isSome = true := by
                      rw [hobsx.2.1 j, hnd]
                      rfl
                    have hs := sigAfterTry_spec (n+1) stx j hsomex
                    refine ⟨StObs.trans hobsx (stobs_sigAfterTry (n+1) stx j hsomex), ?_⟩
                    intro i hi hf hb
                    rcases hcondx i hi hf hb with ⟨hij, hix, hfx, hlx⟩
                    refine ⟨hs.2.2.2.2.2.2.2.1 i hix hij, ?_, ?_⟩
                    · rw [hs.2.2.2.2.2.2.1 i hij]
                      exact hfx
                    · rw [hs.2.1 i]
                      exact hlx
                  cases er with
                  | ok r =>
                    dsimp only
                    set st4 := modifyN st3 j (fun n2 => { n2 with last := some (RawV.conc r) })
                      with hst4
                    have hobs4 : StObs st st4 :=
                      StObs.trans (StObs.trans hobs2 hEV.1) (stobs_setlast st3 j _)
                    have hcond4 : ∀ i, i ∈ st.cset → flagOf st i = true → ReentryBlocked cfg st i →
                        i ≠ j ∧ i ∈ st4.cset ∧ flagOf st4 i = true ∧ lastOf st4 i = lastOf st i := by
                      intro i hi hf hb
                      rcases hcond2 i hi hf hb with ⟨hij, hi2, hf2, hl2⟩
                      rcases hEV.2 i hi2 hf2 (reentryBlocked_of_obs hobs2 hb) with ⟨hi3, hf3, hl3⟩
                      refine ⟨hij, ?_, ?_, ?_⟩
                      · rw [(modifyN_stack st3 j _).2]
                        exact hi3
                      · rw [(modifyN_setlast st3 j _ i).1]
                        exact hf3
                      · rw [(modifyN_setlast st3 j _ i).2.2.2 hij]
                        exact hl3.trans hl2
                    exact hafterCommon st4 hobs4 hcond4
                  | error e0 =>
                    dsimp only
                    have hobs3 : StObs st st3 := StObs.trans hobs2 hEV.1
                    have hcond3 : ∀ i, i ∈ st.cset → flagOf st i = true → ReentryBlocked cfg st i →
                        i ≠ j ∧ i ∈ st3.cset ∧ flagOf st3 i = true ∧ lastOf st3 i = lastOf st i := by
                      intro i hi hf hb
                      rcases hcond2 i hi hf hb with ⟨hij, hi2, hf2, hl2⟩
                      rcases hEV.2 i hi2 hf2 (reentryBlocked_of_obs hobs2 hb) with ⟨hi3, hf3, hl3⟩
                      exact ⟨hij, hi3, hf3, hl3.trans hl2⟩
                    by_cases hsf : isSigFamily e0 = true
                    · rw [if_pos hsf]
                      exact hafterCommon st3 hobs3 hcond3
                    · rw [if_neg hsf]
                      refine ⟨hobs3, ?_⟩
                      intro i hi hf hb
                      rcases hcond3 i hi hf hb with ⟨_, hi3, hf3, hl3⟩
                      exact ⟨hi3, hf3, hl3⟩
            · have hbf : (nd.flag && isCallable nd.current) = false := by
                cases hq : (nd.flag && isCallable nd.current)
                · rfl
                · exact absurd hq hb2
              have hred : getNode (n+1) cfg st j = getterTail (n+1) st j RErr.unresolvedSignal := by
                simp [getNode, ← List.get?_eq_getElem?, hdef, hnd, hbf]
              rw [hred]
              have hsome : (getN st j).isSome = true := by rw [hnd]; rfl
              have hgt := getterTail_spec (n+1) st j RErr.unresolvedSignal hsome
              refine ⟨stobs_getterTail (n+1) st j _ hsome, ?_⟩
              intro i hi hf hb
              have hij : i ≠ j := by
                intro hcon
                subst hcon
                have hfj : nd.flag = true := by
                  rw [← flagOf_eq st i nd hnd]
                  exact hf
                have hcj : isCallable nd.current = true := by
                  unfold ReentryBlocked at hb
                  rw [hdef] at hb
                  rw [← currentOf_eq st i nd hnd]
                  exact hb
                rw [hfj, hcj] at hbf
                exact Bool.noConfusion hbf
              refine ⟨by rw [hgt.2.2.1]; exact hi, ?_, hgt.2.2.2.2.2.2.1 i⟩
              rw [hgt.2.2.2.2.1 i hij]
              exact hf
    · intro cfg st e
      cases e with
      | const m =>
        exact ⟨StObs.refl st, fun i hi hf _ => ⟨hi, hf, rfl⟩⟩
      | read j2 =>
        have h := ih.1 cfg st j2
        rcases hg : getNode n cfg st j2 with ⟨res, st2⟩
        rw [hg] at h
        show StObs st (evalE (n+1) cfg st (FExpr.read j2)).2 ∧ _
        have hred : evalE (n+1) cfg st (FExpr.read j2) =
            (match getNode n cfg st j2 with
             | (Except.ok (RawV.conc m), stx) => (Except.ok m, stx)
             | (Except.ok _, stx) => (Except.error RErr.typeErr, stx)
             | (Except.error e0, stx) => (Except.error e0, stx)) := by
          simp [evalE]
        rw [hred, hg]
        cases res with
        | ok v => cases v with
          | conc m => exact h
          | func fid => exact h
          | defaultSym => exact h
        | error e0 => exact h
      | add a b =>
        have hred : evalE (n+1) cfg st (FExpr.add a b) =
            (match evalE n cfg st a with
             | (Except.error e0, stx) => (Except.error e0, stx)
             | (Except.ok n1, stx) =>
               match evalE n cfg stx b with
               | (Except.error e0, sty) => (Except.error e0, sty)
               | (Except.ok n2, sty) => (Except.ok (n1 + n2), sty)) := by
          simp [evalE]
        rw [hred]
        rcases ha : evalE n cfg st a with ⟨ra, st2⟩
        have h1 := ih.2 cfg st a
        rw [ha] at h1
        cases ra with
        | error e0 => exact h1
        | ok n1 =>
          dsimp only
          rcases hb : evalE n cfg st2 b with ⟨rb, st3⟩
          have h2 := ih.2 cfg st2 b
          rw [hb] at h2
          have hcomp : ∀ i, i ∈ st.cset → flagOf st i = true → ReentryBlocked cfg st i →
              i ∈ st3.cset ∧ flagOf st3 i = true ∧ lastOf st3 i = lastOf st i := by
            intro i hi hf hb0
            rcases h1.2 i hi hf hb0 with ⟨hi2, hf2, hl2⟩
            rcases h2.2 i hi2 hf2 (reentryBlocked_of_obs h1.1 hb0) with ⟨hi3, hf3, hl3⟩
            exact ⟨hi3, hf3, hl3.trans hl2⟩
          cases rb with
          | error e0 => exact ⟨StObs.trans h1.1 h2.1, hcomp⟩
          | ok n2 => exact ⟨StObs.trans h1.1 h2.1, hcomp⟩

end Sebulvents

namespace Sebulvents

/-- Helper: the syntactic reads of a computed node are those of its
factory. -/
theorem readsOf_comp {cfg : RCfg} {j : Nat} {fac : FExpr}
    (h : cfg.defs.get? j = some (NodeDef.compDef fac)) :
    readsOf cfg j = readsE fac := by
  unfold readsOf
  rw [h]

/-- Helper: fully-evaluated nodes stay fully evaluated when flags only
move from raised to cleared. -/
theorem done_mono {cfg : RCfg} {st st2 : RSt}
    (hmono : ∀ x, flagOf st x = false → flagOf st2 x = false) {k : Nat}
    (h : DoneNode cfg st k) : DoneNode cfg st2 k := by
  induction h with
  | mk j hflag hreads ih => exact DoneNode.mk j (hmono j hflag) ih

/-- Helper: a fully-evaluated node lies on no read cycle, because the
inductive evaluation order is well-founded. -/
theorem done_no_cycle {cfg : RCfg} {st : RSt} {k : Nat}
    (h : DoneNode cfg st k) : ¬ ReadPath cfg k k := by
  induction h with
  | mk j hflag hreads ih =>
    intro hcyc
    rcases Relation.TransGen.head'_iff.mp hcyc with ⟨c, hstep, hpath⟩
    exact ih c hstep (Relation.TransGen.tail' hpath hstep)

/-- Helper: a fresh graph state satisfies the evaluation invariant
(no node is clean, so the Done conditions are vacuous). -/
theorem rinv_of_fresh {cfg : RCfg} {st : RSt} (h : FreshFor cfg st) : RInv cfg st := by
  obtain ⟨hlen, _, _, hflags⟩ := h
  have hflagtrue : ∀ j, j < cfg.defs.length → flagOf st j = true := by
    intro j hj
    have hlt2 : j < st.nodes.length := by rw [hlen]; exact hj
    have hget : getN st j = some (st.nodes.get ⟨j, hlt2⟩) := List.get?_eq_some.mpr ⟨hlt2, rfl⟩
    rw [flagOf_eq st j _ hget]
    exact hflags _ (st.nodes.get_mem j hlt2)
  refine ⟨?_, ?_, ?_⟩
  · intro j
    constructor
    · intro hs
      rcases Option.isSome_iff_exists.mp hs with ⟨nd, hnd⟩
      rcases List.get?_eq_some.mp hnd with ⟨hlt, _⟩
      rw [← hlen]
      exact hlt
    · intro hlt
      have hlt2 : j < st.nodes.length := by rw [hlen]; exact hlt
      unfold getN
      rw [List.get?_eq_some.mpr ⟨hlt2, rfl⟩]
      rfl
  · intro j hj hflag
    rw [hflagtrue j hj] at hflag
    exact Bool.noConfusion hflag
  · intro j hj hflag
    rw [hflagtrue j hj] at hflag
    exact Bool.noConfusion hflag

/-- Helper: setting the cache of an existing node stores it. -/
theorem lastOf_setlast_self (st : RSt) (i : Nat) (v : Option RawV)
    (hex : (getN st i).isSome = true) :
    lastOf (modifyN st i (fun n2 => { n2 with last := v })) i = v := by
  rcases Option.isSome_iff_exists.mp hex with ⟨nd, hnd⟩
  unfold lastOf
  rw [getN_modifyN_self, hnd]
  rfl

end Sebulvents

namespace Sebulvents

/-- Helper: the invariant transports along pointwise-equal
observations. -/
theorem rinv_of_eqs {cfg : RCfg} {st st2 : RSt}
    (hsm : ∀ x, (getN st2 x).isSome = (getN st x).isSome)
    (hfl : ∀ x, flagOf st2 x = flagOf st x)
    (hls : ∀ x, lastOf st2 x = lastOf st x)
    (h : RInv cfg st) : RInv cfg st2 := by
  refine ⟨?_, ?_, ?_⟩
  · intro j
    rw [hsm j]
    exact h.1 j
  · intro j hj hflag
    exact done_mono (fun x hx => by rw [hfl x]; exact hx)
      (h.2.1 j hj (by rw [← hfl j]; exact hflag))
  · intro j hj hflag
    rw [hls j]
    exact h.2.2 j hj (by rw [← hfl j]; exact hflag)

/-- Helper: the invariant ignores the stack and the collection set. -/
theorem rinv_nodes_eq {cfg : RCfg} {st st2 : RSt} (h : st2.nodes = st.nodes)
    (hinv : RInv cfg st) : RInv cfg st2 := by
  have hg : ∀ x, getN st2 x = getN st x := by
    intro x
    unfold getN
    rw [h]
  exact rinv_of_eqs (fun x => by rw [hg x])
    (fun x => by unfold flagOf; rw [hg x])
    (fun x => by unfold lastOf; rw [hg x]) hinv

end Sebulvents

namespace Sebulvents

/-- Helper: filtering out a fresh head leaves the tail unchanged. -/
theorem filter_ne_cons_self (l : List Nat) (j : Nat) (hj : j ∉ l) :
    (j :: l).filter (fun y => y ≠ j) = l := by
  have h1 : l.filter (fun y => y ≠ j) = l := by
    apply List.filter_eq_self.mpr
    intro a ha
    have haj : a ≠ j := fun hq => hj (hq ▸ ha)
    simpa using haj
  rw [List.filter_cons_of_neg (by simp)]
  exact h1

/-- Helper: evaluation over an all-computed well-formed graph satisfies
the getter and body postconditions at every fuel. -/
theorem eval_all_computed : ∀ fuel : Nat,
    (∀ cfg st j, AllComputed cfg → WFReads cfg → RInv cfg st → j < cfg.defs.length →
      GPost cfg st j (getNode fuel cfg st j))
  ∧ (∀ cfg st e0, AllComputed cfg → WFReads cfg → RInv cfg st →
      (∀ k ∈ readsE e0, k < cfg.defs.length) →
      EPost cfg st e0 (evalE fuel cfg st e0)) := by
  intro fuel
  induction fuel with
  | zero =>
    exact ⟨fun cfg st j _ _ _ _ => Or.inr rfl, fun cfg st e0 _ _ _ _ => Or.inr rfl⟩
  | succ n ih =>
    constructor
    · intro cfg st j hall hwf hinv hlen
      have hdef0 : ∃ d, cfg.defs.get? j = some d := by
        cases hd : cfg.defs.get? j with
        | none =>
          rw [List.get?_eq_none] at hd
          omega
        | some d => exact ⟨d, rfl⟩
      obtain ⟨d, hd⟩ := hdef0
      obtain ⟨fac, hdfac⟩ := hall d (List.get?_mem hd)
      subst hdfac
      obtain ⟨nd, hnd⟩ := Option.isSome_iff_exists.mp ((hinv.1 j).mpr hlen)
      have hc := fun x => clearDependencies_preserves st j x
      by_cases hfl : nd.flag = true
      · have hred : getNode (n+1) cfg st j =
            (match beginCollection (clearDependencies st j) j with
             | (Except.error e, st2) => (Except.error e, st2)
             | (Except.ok _, st2) =>
               match evalE n cfg st2 fac with
               | (Except.error e, st3) => (Except.error e, st3)
               | (Except.ok r, st3) =>
                 match endCollection
                     (modifyN st3 j (fun n2 => { n2 with last := some (RawV.conc r) })) j with
                 | (Except.error e, st5) => (Except.error e, st5)
                 | (Except.ok _, st5) => getterTail (n+1) st5 j RErr.unresolvedComputed) := by
          simp [getNode, ← List.get?_eq_getElem?, hd, hnd, hfl]
        rw [hred]
        set st1 := clearDependencies st j with hst1
        have hinv1 : RInv cfg st1 :=
          rinv_of_eqs (fun x => (hc x).2.2.2.2.2) (fun x => (hc x).2.2.1)
            (fun x => (hc x).2.2.2.2.1) hinv
        by_cases hmem : j ∈ st1.cset
        · rw [(beginCollection_spec st1 j).1 hmem]
          exact Or.inl rfl
        · rw [(beginCollection_spec st1 j).2 hmem]
          dsimp only
          set st2 : RSt := { st1 with stack := j :: st1.stack, cset := j :: st1.cset }
            with hst2
          have hinv2 : RInv cfg st2 :=
            rinv_nodes_eq (show st2.nodes = st1.nodes from rfl) hinv1
          have hreadslen : ∀ k ∈ readsE fac, k < cfg.defs.length := by
            intro k hk
            exact hwf j k (by rw [readsOf_comp hd]; exact hk)
          have hEV := (ih.2 : _) cfg st2 fac hall hwf hinv2 hreadslen
          rcases hev : evalE n cfg st2 fac with ⟨er, st3⟩
          rw [hev] at hEV
          cases er with
          | error e0 =>
            dsimp only
            exact hEV
          | ok r =>
            dsimp only
            obtain ⟨hinv3, hstk3, hcset3, hmono3, hdone3⟩ := hEV
            set st4 := modifyN st3 j (fun n2 => { n2 with last := some (RawV.conc r) })
              with hst4
            have hm4 := fun x => modifyN_setlast st3 j (some (RawV.conc r)) x
            have hex3 : (getN st3 j).isSome = true := (hinv3.1 j).mpr hlen
            have hstk4 : st4.stack = j :: st.stack := by
              rw [hst4, (modifyN_stack st3 j _).1, hstk3]
              show j :: st1.stack = j :: st.stack
              rw [(hc 0).1]
            have hcset4 : st4.cset = j :: st.cset := by
              rw [hst4, (modifyN_stack st3 j _).2, hcset3]
              show j :: st1.cset = j :: st.cset
              rw [(hc 0).2.1]
            rw [endCollection_cons st4 j j st.stack hstk4, if_pos rfl]
            dsimp only
            set st5 : RSt :=
              { st4 with stack := st.stack, cset := st4.cset.filter (fun y => y ≠ j) }
              with hst5
            have hjn : j ∉ st.cset := by
              intro hc0
              exact hmem (by rw [(hc 0).2.1]; exact hc0)
            have hcset5 : st5.cset = st.cset := by
              show st4.cset.filter (fun y => y ≠ j) = st.cset
              rw [hcset4]
              exact filter_ne_cons_self st.cset j hjn
            have hex5 : (getN st5 j).isSome = true := by
              show (getN st4 j).isSome = true
              rw [(hm4 j).2.2.1]
              exact hex3
            have hlast5 : lastOf st5 j = some (RawV.conc r) := by
              show lastOf st4 j = some (RawV.conc r)
              rw [hst4]
              exact lastOf_setlast_self st3 j _ hex3
            have hgt := getterTail_spec (n+1) st5 j RErr.unresolvedComputed hex5
            rcases hgtr : getterTail (n+1) st5 j RErr.unresolvedComputed with ⟨gr, stF⟩
            rw [hgtr] at hgt
            dsimp only at hgt
            have hgr : gr = Except.ok (RawV.conc r) := by rw [hgt.1, hlast5]
            subst hgr
            have hmono3F : ∀ x, flagOf st3 x = false → flagOf stF x = false := by
              intro x hx
              have hx4 : flagOf st4 x = false := by rw [(hm4 x).1]; exact hx
              have hx5 : flagOf st5 x = false := hx4
              by_cases hxj : x = j
              · subst hxj
                exact hgt.2.2.2.1
              · rw [hgt.2.2.2.2.1 x hxj]
                exact hx5
            have hmonoF : ∀ x, flagOf st x = false → flagOf stF x = false := by
              intro x hx
              have hx1 : flagOf st1 x = false := by rw [(hc x).2.2.1]; exact hx
              have hx2 : flagOf st2 x = false := hx1
              exact hmono3F x (hmono3 x hx2)
            have hflagdown : ∀ x, x ≠ j → flagOf stF x = false → flagOf st3 x = false := by
              intro x hxj hx
              rw [hgt.2.2.2.2.1 x hxj] at hx
              have hx4 : flagOf st4 x = false := hx
              rw [(hm4 x).1] at hx4
              exact hx4
            have hdoneFj : DoneNode cfg stF j :=
              DoneNode.mk j hgt.2.2.2.1
                (fun k hk => done_mono hmono3F
                  (hdone3 k (by rwa [readsOf_comp hd] at hk)))
            refine ⟨⟨?_, ?_, ?_⟩, ?_, ?_, hmonoF, hdoneFj, ⟨r, rfl⟩⟩
            · intro x
              rw [hgt.2.2.2.2.2.2.2 x]
              show (getN st4 x).isSome = true ↔ x < cfg.defs.length
              rw [(hm4 x).2.2.1]
              exact hinv3.1 x
            · intro x hxlen hxflag
              by_cases hxj : x = j
              · subst hxj
                exact hdoneFj
              · exact done_mono hmono3F (hinv3.2.1 x hxlen (hflagdown x hxj hxflag))
            · intro x hxlen hxflag
              by_cases hxj : x = j
              · refine ⟨r, ?_⟩
                rw [hxj, hgt.2.2.2.2.2.2.1 j]
                exact hlast5
              · obtain ⟨r2, hr2⟩ := hinv3.2.2 x hxlen (hflagdown x hxj hxflag)
                refine ⟨r2, ?_⟩
                rw [hgt.2.2.2.2.2.2.1 x]
                show lastOf st4 x = some (RawV.conc r2)
                rw [(hm4 x).2.2.2 hxj]
                exact hr2
            · rw [hgt.2.1]
            · rw [hgt.2.2.1]
              exact hcset5
      · have hfl2 : nd.flag = false := by
          cases hq : nd.flag
          · rfl
          · exact absurd hq hfl
        have hred : getNode (n+1) cfg st j = getterTail (n+1) st j RErr.unresolvedComputed := by
          simp [getNode, ← List.get?_eq_getElem?, hd, hnd, hfl2]
        rw [hred]
        have hex : (getN st j).isSome = true := (hinv.1 j).mpr hlen
        have hflagj : flagOf st j = false := by
          rw [flagOf_eq st j nd hnd]
          exact hfl2
        obtain ⟨r, hlastj⟩ := hinv.2.2 j hlen hflagj
        have hgt := getterTail_spec (n+1) st j RErr.unresolvedComputed hex
        rcases hgtr : getterTail (n+1) st j RErr.unresolvedComputed with ⟨gr, stF⟩
        rw [hgtr] at hgt
        dsimp only at hgt
        have hgr : gr = Except.ok (RawV.conc r) := by rw [hgt.1, hlastj]
        subst hgr
        have hfleq : ∀ x, flagOf stF x = flagOf st x := by
          intro x
          by_cases hxj : x = j
          · subst hxj
            rw [hgt.2.2.2.1, hflagj]
          · exact hgt.2.2.2.2.1 x hxj
        have hmonoF : ∀ x, flagOf st x = false → flagOf stF x = false := by
          intro x hx
          rw [hfleq x]
          exact hx
        exact ⟨rinv_of_eqs (fun x => hgt.2.2.2.2.2.2.2 x) hfleq
                 (fun x => hgt.2.2.2.2.2.2.1 x) hinv,
               hgt.2.1, hgt.2.2.1, hmonoF,
               done_mono hmonoF (hinv.2.1 j hlen hflagj), ⟨r, rfl⟩⟩
    · intro cfg st e0 hall hwf hinv hlens
      cases e0 with
      | const m =>
        exact ⟨hinv, rfl, rfl, fun x hx => hx, fun k hk => absurd hk (List.not_mem_nil k)⟩
      | read j2 =>
        have hred : evalE (n+1) cfg st (FExpr.read j2) =
            (match getNode n cfg st j2 with
             | (Except.ok (RawV.conc m), stx) => (Except.ok m, stx)
             | (Except.ok _, stx) => (Except.error RErr.typeErr, stx)
             | (Except.error e1, stx) => (Except.error e1, stx)) := by
          simp [evalE]
        rw [hred]
        have hj2 : j2 < cfg.defs.length := hlens j2 (by simp [readsE])
        have hG := (ih.1 : _) cfg st j2 hall hwf hinv hj2
        rcases hg : getNode n cfg st j2 with ⟨res, st2⟩
        rw [hg] at hG
        cases res with
        | ok v =>
          obtain ⟨hinv2, hstk2, hcset2, hmono2, hdone2, r, hvr⟩ := hG
          subst hvr
          dsimp only
          refine ⟨hinv2, hstk2, hcset2, hmono2, ?_⟩
          intro k hk
          have hkj : k = j2 := by simpa [readsE] using hk
          rw [hkj]
          exact hdone2
        | error e1 =>
          dsimp only
          exact hG
      | add a b =>
        have hred : evalE (n+1) cfg st (FExpr.add a b) =
            (match evalE n cfg st a with
             | (Except.error e1, stx) => (Except.error e1, stx)
             | (Except.ok n1, stx) =>
               match evalE n cfg stx b with
               | (Except.error e1, sty) => (Except.error e1, sty)
               | (Except.ok n2, sty) => (Except.ok (n1 + n2), sty)) := by
          simp [evalE]
        rw [hred]
        have hlena : ∀ k ∈ readsE a, k < cfg.defs.length :=
          fun k hk => hlens k (List.mem_append.mpr (Or.inl hk))
        have hlenb : ∀ k ∈ readsE b, k < cfg.defs.length :=
          fun k hk => hlens k (List.mem_append.mpr (Or.inr hk))
        have hA := (ih.2 : _) cfg st a hall hwf hinv hlena
        rcases ha : evalE n cfg st a with ⟨ra, st2⟩
        rw [ha] at hA
        cases ra with
        | error e1 =>
          dsimp only
          exact hA
        | ok n1 =>
          obtain ⟨hinv2, hstk2, hcset2, hmono2, hdoneA⟩ := hA
          dsimp only
          have hB := (ih.2 : _) cfg st2 b hall hwf hinv2 hlenb
          rcases hb : evalE n cfg st2 b with ⟨rb, st3⟩
          rw [hb] at hB
          cases rb with
          | error e1 =>
            dsimp only
            exact hB
          | ok n2 =>
            obtain ⟨hinv3, hstk3, hcset3, hmono3, hdoneB⟩ := hB
            dsimp only
            refine ⟨hinv3, hstk3.trans hstk2, hcset3.trans hcset2,
              fun x hx => hmono3 x (hmono2 x hx), ?_⟩
            intro k hk
            rcases List.mem_append.mp hk with hka | hkb
            · exact done_mono hmono3 (hdoneA k hka)
            · exact hdoneB k hkb

end Sebulvents

namespace Sebulvents

/-- Helper: end collection fails only with IndexError or the
stack-mismatch error. -/
theorem endCollection_error (st : RSt) (i : Nat) (e : RErr)
    (h : (endCollection st i).1 = Except.error e) :
    e = RErr.indexErr ∨ e = RErr.mismatch := by
  cases hstk : st.stack with
  | nil =>
    rw [endCollection_nil st i hstk] at h
    dsimp only at h
    injection h with h2
    exact Or.inl h2.symm
  | cons top rest =>
    rw [endCollection_cons st i top rest hstk] at h
    by_cases htop : top = i
    · rw [if_pos htop] at h
      dsimp only at h
      exact Except.noConfusion h
    · rw [if_neg htop] at h
      dsimp only at h
      injection h with h2
      exact Or.inr h2.symm

/-- Helper: end collection changes no node state. -/
theorem endCollection_obs (st : RSt) (i x : Nat) :
    flagOf (endCollection st i).2 x = flagOf st x
  ∧ lastOf (endCollection st i).2 x = lastOf st x
  ∧ (getN (endCollection st i).2 x).isSome = (getN st x).isSome := by
  unfold flagOf lastOf getN
  rw [endCollection_nodes]
  exact ⟨rfl, rfl, rfl⟩

end Sebulvents

namespace Sebulvents

/-- C4 counterexample: in the graph `cfgC4` the factory of computed
node 0 reads signal node 1, whose raw value is the factory closure
`fenv[0]`, which reads node 0 back — a self-read through a chain of
dependent reads.  Evaluating node 0 does not fail with a reactive-graph
error: the circular-dependency exception raised at the inner re-entrant
read is a `SignalException`, the signal getter's except-clause swallows
it, the signal serves its stale cache 5, and the computed evaluation
returns 5 successfully. -/
theorem computed_cycle_through_signal_swallowed :
    cfgC4.defs.get? 0 = some (NodeDef.compDef (FExpr.read 1))
  ∧ currentOf stC4 1 = some (RawV.func 0)
  ∧ cfgC4.fenv.get? 0 = some (FExpr.read 0)
  ∧ (getNode 40 cfgC4 stC4 0).1 = Except.ok (RawV.conc 5) :=
  ⟨rfl, rfl, rfl, rfl⟩

/-- C4 (amended): over a graph consisting solely of computed values
with well-formed reads, starting fresh, evaluating a node that reads
itself directly or through a chain of computed reads can never succeed
and never fails with anything but the circular-dependency error — the
only other outcome is exhausting the step budget of the embedding,
which is an artifact of the fueled model, not of the code. -/
theorem computed_self_read_cycle_fails (fuel : Nat) (cfg : RCfg) (st : RSt) (i : Nat)
    (hall : AllComputed cfg) (hwf : WFReads cfg) (hfresh : FreshFor cfg st)
    (hlen : i < cfg.defs.length) (hcyc : ReadPath cfg i i) :
    (getNode fuel cfg st i).1 = Except.error RErr.dangerous ∨
    (getNode fuel cfg st i).1 = Except.error RErr.fuelOut := by
  have hinv := rinv_of_fresh hfresh
  have hG := (eval_all_computed fuel).1 cfg st i hall hwf hinv hlen
  rcases hg : getNode fuel cfg st i with ⟨res, st2⟩
  rw [hg] at hG
  cases res with
  | ok v =>
    exfalso
    obtain ⟨_, _, _, _, hdone, _⟩ := hG
    exact done_no_cycle hdone hcyc
  | error e =>
    rcases hG with he | he
    · exact Or.inl (by rw [he])
    · exact Or.inr (by rw [he])

/-- C4 witness: the two-node ring of computed values satisfies every
hypothesis; with fuel 40 its evaluation indeed fails. -/
theorem computed_self_read_cycle_fails_witness :
    AllComputed cfgRing2 ∧ WFReads cfgRing2 ∧ FreshFor cfgRing2 stRing2
  ∧ 0 < cfgRing2.defs.length ∧ ReadPath cfgRing2 0 0
  ∧ ((getNode 40 cfgRing2 stRing2 0).1 = Except.error RErr.dangerous ∨
     (getNode 40 cfgRing2 stRing2 0).1 = Except.error RErr.fuelOut) := by
  have hall : AllComputed cfgRing2 := by
    intro d hd
    simp only [cfgRing2, List.mem_cons, List.not_mem_nil, or_false] at hd
    rcases hd with h | h
    · exact ⟨FExpr.read 1, h⟩
    · exact ⟨FExpr.read 0, h⟩
  have hwf : WFReads cfgRing2 := by
    intro i j hj
    match i with
    | 0 =>
      have h1 : j = 1 := by simpa [cfgRing2, readsOf, readsE] using hj
      rw [h1]
      decide
    | 1 =>
      have h1 : j = 0 := by simpa [cfgRing2, readsOf, readsE] using hj
      rw [h1]
      decide
    | (m+2) =>
      exfalso
      simp [cfgRing2, readsOf] at hj
  have hfresh : FreshFor cfgRing2 stRing2 := by
    refine ⟨rfl, rfl, rfl, ?_⟩
    intro nd hnd
    simp only [stRing2, List.mem_cons, List.not_mem_nil, or_false] at hnd
    rcases hnd with h | h <;> rw [h] <;> rfl
  have hstep01 : ReadStep cfgRing2 0 1 := by
    show (1 : Nat) ∈ readsOf cfgRing2 0
    simp [cfgRing2, readsOf, readsE]
  have hstep10 : ReadStep cfgRing2 1 0 := by
    show (0 : Nat) ∈ readsOf cfgRing2 1
    simp [cfgRing2, readsOf, readsE]
  have hcyc : ReadPath cfgRing2 0 0 :=
    Relation.TransGen.head hstep01 (Relation.TransGen.single hstep10)
  exact ⟨hall, hwf, hfresh, by decide, hcyc,
    computed_self_read_cycle_fails 40 cfgRing2 stRing2 0 hall hwf hfresh (by decide) hcyc⟩

end Sebulvents

namespace Sebulvents

/-- C8 counterexample: in `cfgC8` the dirty computed node 0 runs its
factory, which fails (signal node 1 has no value and raises the plain
unresolved-value exception).  Were the dirty flag cleared before the
body, node 0 would come out clean; instead the flag is still raised
afterwards and node 0 is stuck in the global evaluating set, so the
next get fails with the circular-dependency error instead of retrying
or waiting for an external invalidation. -/
theorem computed_failed_recomputation_stays_dirty :
    (getNode 40 cfgC8 stC8 0).1 = Except.error RErr.unresolvedSignal
  ∧ flagOf (getNode 40 cfgC8 stC8 0).2 0 = true
  ∧ (getNode 40 cfgC8 stC8 0).2.cset = [0]
  ∧ (getNode 40 cfgC8 (getNode 40 cfgC8 stC8 0).2 0).1 = Except.error RErr.dangerous :=
  ⟨rfl, rfl, rfl, rfl⟩

end Sebulvents

namespace Sebulvents

/-- C8 (amended): in every reactive recomputation the dirty flag is
cleared only after the body runs, not before.  A successful computed
get and a successful signal get come out with the flag down; a dirty
computed recomputation whose body fails keeps the flag raised and (for
genuine body failures) leaves the node in the global evaluating set, so
the next get hits the circular-dependency error instead of retrying; a
dirty factory-backed signal clears its flag even on a caught reactive
failure (surfacing the unresolved-value error when the cache is empty)
but keeps it raised when any other error escapes; a successful effect
re-run ends with the flag down and a failed one leaves the flag exactly
as it was. -/
theorem recomputation_clears_flag_after_body (fuel : Nat) (cfg : RCfg) (st : RSt) (i : Nat) :
    (∀ fac v, cfg.defs.get? i = some (NodeDef.compDef fac) →
      (getNode fuel cfg st i).1 = Except.ok v →
      flagOf (getNode fuel cfg st i).2 i = false)
  ∧ (∀ fac e, cfg.defs.get? i = some (NodeDef.compDef fac) →
      flagOf st i = true →
      (getNode fuel cfg st i).1 = Except.error e →
      flagOf (getNode fuel cfg st i).2 i = true)
  ∧ (∀ fac e, cfg.defs.get? i = some (NodeDef.compDef fac) →
      flagOf st i = true →
      (getNode fuel cfg st i).1 = Except.error e →
      e ≠ RErr.mismatch → e ≠ RErr.indexErr → e ≠ RErr.fuelOut →
      i ∈ (getNode fuel cfg st i).2.cset)
  ∧ (∀ v, cfg.defs.get? i = some NodeDef.sigDef →
      (getNode fuel cfg st i).1 = Except.ok v →
      flagOf (getNode fuel cfg st i).2 i = false)
  ∧ (∀ e, cfg.defs.get? i = some NodeDef.sigDef →
      flagOf st i = true → isCallable (currentOf st i) = true →
      (getNode fuel cfg st i).1 = Except.error e → e ≠ RErr.unresolvedSignal →
      flagOf (getNode fuel cfg st i).2 i = true)
  ∧ (∀ u, (effUpdate fuel cfg st i).1 = Except.ok u →
      flagOf (effUpdate fuel cfg st i).2 i = false)
  ∧ (∀ e, (effUpdate fuel cfg st i).1 = Except.error e →
      flagOf (effUpdate fuel cfg st i).2 i = flagOf st i) := by
  refine ⟨?_, ?_, ?_, ?_, ?_, ?_, ?_⟩
  · intro fac v hdef h
    cases fuel with
    | zero => exact Except.noConfusion h
    | succ m =>
      cases hnd : getN st i with
      | none =>
        have hred : getNode (m+1) cfg st i = (Except.error RErr.badNode, st) := by
          simp [getNode, ← List.get?_eq_getElem?, hdef, hnd]
        rw [hred] at h
        exact Except.noConfusion h
      | some nd =>
        have hex : (getN st i).isSome = true := by rw [hnd]; rfl
        have hc := fun x => clearDependencies_preserves st i x
        by_cases hfl : nd.flag = true
        · have hred : getNode (m+1) cfg st i =
              (match beginCollection (clearDependencies st i) i with
               | (Except.error e, st2) => (Except.error e, st2)
               | (Except.ok _, st2) =>
                 match evalE m cfg st2 fac with
                 | (Except.error e, st3) => (Except.error e, st3)
                 | (Except.ok r, st3) =>
                   match endCollection
                       (modifyN st3 i (fun n2 => { n2 with last := some (RawV.conc r) })) i with
                   | (Except.error e, st5) => (Except.error e, st5)
                   | (Except.ok _, st5) => getterTail (m+1) st5 i RErr.unresolvedComputed) := by
            simp [getNode, ← List.get?_eq_getElem?, hdef, hnd, hfl]
          rw [hred] at h ⊢
          set st1 := clearDependencies st i with hst1
          by_cases hmem : i ∈ st1.cset
          · rw [(beginCollection_spec st1 i).1 hmem] at h ⊢
            exact Except.noConfusion h
          · rw [(beginCollection_spec st1 i).2 hmem] at h ⊢
            dsimp only at h ⊢
            set st2 : RSt := { st1 with stack := i :: st1.stack, cset := i :: st1.cset }
              with hst2
            have hPA := (preserve_all m).2 cfg st2 fac
            rcases hev : evalE m cfg st2 fac with ⟨er, st3⟩
            rw [hev] at h hPA
            cases er with
            | error e0 => exact Except.noConfusion h
            | ok r =>
              dsimp only at h ⊢
              set st4 := modifyN st3 i (fun n2 => { n2 with last := some (RawV.conc r) })
                with hst4
              have hex2 : (getN st2 i).isSome = true := by
                show (getN st1 i).isSome = true
                rw [(hc i).2.2.2.2.2, hnd]
                rfl
              have hex3 : (getN st3 i).isSome = true := by
                rw [hPA.1.2.1 i]
                exact hex2
              have hex4 : (getN st4 i).isSome = true := by
                rw [hst4, (modifyN_setlast st3 i (some (RawV.conc r)) i).2.2.1]
                exact hex3
              rcases hend : endCollection st4 i with ⟨er2, st5⟩
              rw [hend] at h
              have hob := endCollection_obs st4 i i
              rw [hend] at hob
              cases er2 with
              | error e2 => exact Except.noConfusion h
              | ok u =>
                dsimp only at h ⊢
                have hex5 : (getN st5 i).isSome = true := by
                  have h5 : (getN st5 i).isSome = (getN st4 i).isSome := hob.2.2
                  rw [h5]
                  exact hex4
                exact (getterTail_spec (m+1) st5 i RErr.unresolvedComputed hex5).2.2.2.1
        · have hfl2 : nd.flag = false := by
            cases hq : nd.flag
            · rfl
            · exact absurd hq hfl
          have hred : getNode (m+1) cfg st i = getterTail (m+1) st i RErr.unresolvedComputed := by
            simp [getNode, ← List.get?_eq_getElem?, hdef, hnd, hfl2]
          rw [hred]
          exact (getterTail_spec (m+1) st i RErr.unresolvedComputed hex).2.2.2.1
  · intro fac e hdef hflag h
    cases fuel with
    | zero => exact hflag
    | succ m =>
      cases hnd : getN st i with
      | none =>
        have hfalse : flagOf st i = false := by
          unfold flagOf
          rw [hnd]
          rfl
        rw [hfalse] at hflag
        exact Bool.noConfusion hflag
      | some nd =>
        have hex : (getN st i).isSome = true := by rw [hnd]; rfl
        have hc := fun x => clearDependencies_preserves st i x
        have hfl : nd.flag = true := by
          rw [← flagOf_eq st i nd hnd]
          exact hflag
        have hred : getNode (m+1) cfg st i =
            (match beginCollection (clearDependencies st i) i with
             | (Except.error e, st2) => (Except.error e, st2)
             | (Except.ok _, st2) =>
               match evalE m cfg st2 fac with
               | (Except.error e, st3) => (Except.error e, st3)
               | (Except.ok r, st3) =>
                 match endCollection
                     (modifyN st3 i (fun n2 => { n2 with last := some (RawV.conc r) })) i with
                 | (Except.error e, st5) => (Except.error e, st5)
                 | (Except.ok _, st5) => getterTail (m+1) st5 i RErr.unresolvedComputed) := by
          simp [getNode, ← List.get?_eq_getElem?, hdef, hnd, hfl]
        rw [hred] at h ⊢
        set st1 := clearDependencies st i with hst1
        by_cases hmem : i ∈ st1.cset
        · rw [(beginCollection_spec st1 i).1 hmem] at h ⊢
          dsimp only
          rw [(hc i).2.2.1]
          exact hflag
        · rw [(beginCollection_spec st1 i).2 hmem] at h ⊢
          dsimp only at h ⊢
          set st2 : RSt := { st1 with stack := i :: st1.stack, cset := i :: st1.cset }
            with hst2
          have hmem2 : i ∈ st2.cset := List.mem_cons_self i st1.cset
          have hflag2 : flagOf st2 i = true := by
            show flagOf st1 i = true
            rw [(hc i).2.2.1]
            exact hflag
          have hrb : ReentryBlocked cfg st2 i := by
            unfold ReentryBlocked
            rw [hdef]
            trivial
          have hPA := (preserve_all m).2 cfg st2 fac
          rcases hev : evalE m cfg st2 fac with ⟨er, st3⟩
          rw [hev] at h hPA
          have htr := hPA.2 i hmem2 hflag2 hrb
          cases er with
          | error e0 =>
            dsimp only
            exact htr.2.1
          | ok r =>
            dsimp only at h ⊢
            set st4 := modifyN st3 i (fun n2 => { n2 with last := some (RawV.conc r) })
              with hst4
            have hex2 : (getN st2 i).isSome = true := by
              show (getN st1 i).isSome = true
              rw [(hc i).2.2.2.2.2, hnd]
              rfl
            have hex3 : (getN st3 i).isSome = true := by
              rw [hPA.1.2.1 i]
              exact hex2
            have hfl4 : flagOf st4 i = true := by
              rw [hst4, (modifyN_setlast st3 i (some (RawV.conc r)) i).1]
              exact htr.2.1
            have hex4 : (getN st4 i).isSome = true := by
              rw [hst4, (modifyN_setlast st3 i (some (RawV.conc r)) i).2.2.1]
              exact hex3
            rcases hend : endCollection st4 i with ⟨er2, st5⟩
            rw [hend] at h
            have hob := endCollection_obs st4 i i
            rw [hend] at hob
            cases er2 with
            | error e2 =>
              dsimp only
              have hf5 : flagOf st5 i = flagOf st4 i := hob.1
              rw [hf5]
              exact hfl4
            | ok u =>
              dsimp only at h ⊢
              have hex5 : (getN st5 i).isSome = true := by
                have h5 : (getN st5 i).isSome = (getN st4 i).isSome := hob.2.2
                rw [h5]
                exact hex4
              have hgt := getterTail_spec (m+1) st5 i RErr.unresolvedComputed hex5
              rcases hgtr : getterTail (m+1) st5 i RErr.unresolvedComputed with ⟨gr, stF⟩
              rw [hgtr] at h hgt
              have hlast5 : lastOf st5 i = some (RawV.conc r) := by
                have h5 : lastOf st5 i = lastOf st4 i := hob.2.1
                rw [h5, hst4]
                exact lastOf_setlast_self st3 i _ hex3
              have hgr : gr = Except.ok (RawV.conc r) := by
                have h1 := hgt.1
                rw [hlast5] at h1
                exact h1
              rw [hgr] at h
              exact Except.noConfusion h
  · intro fac e hdef hflag h hm hi hf
    cases fuel with
    | zero =>
      exfalso
      injection h with h2
      exact hf h2.symm
    | succ m =>
      cases hnd : getN st i with
      | none =>
        have hfalse : flagOf st i = false := by
          unfold flagOf
          rw [hnd]
          rfl
        rw [hfalse] at hflag
        exact Bool.noConfusion hflag
      | some nd =>
        have hex : (getN st i).isSome = true := by rw [hnd]; rfl
        have hc := fun x => clearDependencies_preserves st i x
        have hfl : nd.flag = true := by
          rw [← flagOf_eq st i nd hnd]
          exact hflag
        have hred : getNode (m+1) cfg st i =
            (match beginCollection (clearDependencies st i) i with
             | (Except.error e, st2) => (Except.error e, st2)
             | (Except.ok _, st2) =>
               match evalE m cfg st2 fac with
               | (Except.error e, st3) => (Except.error e, st3)
               | (Except.ok r, st3) =>
                 match endCollection
                     (modifyN st3 i (fun n2 => { n2 with last := some (RawV.conc r) })) i with
                 | (Except.error e, st5) => (Except.error e, st5)
                 | (Except.ok _, st5) => getterTail (m+1) st5 i RErr.unresolvedComputed) := by
          simp [getNode, ← List.get?_eq_getElem?, hdef, hnd, hfl]
        rw [hred] at h ⊢
        set st1 := clearDependencies st i with hst1
        by_cases hmem : i ∈ st1.cset
        · rw [(beginCollection_spec st1 i).1 hmem] at h ⊢
          exact hmem
        · rw [(beginCollection_spec st1 i).2 hmem] at h ⊢
          dsimp only at h ⊢
          set st2 : RSt := { st1 with stack := i :: st1.stack, cset := i :: st1.cset }
            with hst2
          have hmem2 : i ∈ st2.cset := List.mem_cons_self i st1.cset
          have hflag2 : flagOf st2 i = true := by
            show flagOf st1 i = true
            rw [(hc i).2.2.1]
            exact hflag
          have hrb : ReentryBlocked cfg st2 i := by
            unfold ReentryBlocked
            rw [hdef]
            trivial
          have hPA := (preserve_all m).2 cfg st2 fac
          rcases hev : evalE m cfg st2 fac with ⟨er, st3⟩
          rw [hev] at h hPA
          have htr := hPA.2 i hmem2 hflag2 hrb
          cases er with
          | error e0 =>
            dsimp only
            exact htr.1
          | ok r =>
            dsimp only at h ⊢
            set st4 := modifyN st3 i (fun n2 => { n2 with last := some (RawV.conc r) })
              with hst4
            have hex2 : (getN st2 i).isSome = true := by
              show (getN st1 i).isSome = true
              rw [(hc i).2.2.2.2.2, hnd]
              rfl
            have hex3 : (getN st3 i).isSome = true := by
              rw [hPA.1.2.1 i]
              exact hex2
            have hex4 : (getN st4 i).isSome = true := by
              rw [hst4, (modifyN_setlast st3 i (some (RawV.conc r)) i).2.2.1]
              exact hex3
            rcases hend : endCollection st4 i with ⟨er2, st5⟩
            rw [hend] at h
            have hob := endCollection_obs st4 i i
            rw [hend] at hob
            cases er2 with
            | error e2 =>
              exfalso
              have he2 : (endCollection st4 i).1 = Except.error e2 := by
                rw [hend]
              have he2e : e2 = e := Except.error.inj h
              rcases endCollection_error st4 i e2 he2 with hx | hx
              · exact hi (he2e ▸ hx ▸ rfl)
              · exact hm (he2e ▸ hx ▸ rfl)
            | ok u =>
              dsimp only at h ⊢
              have hex5 : (getN st5 i).isSome = true := by
                have h5 : (getN st5 i).isSome = (getN st4 i).isSome := hob.2.2
                rw [h5]
                exact hex4
              have hgt := getterTail_spec (m+1) st5 i RErr.unresolvedComputed hex5
              rcases hgtr : getterTail (m+1) st5 i RErr.unresolvedComputed with ⟨gr, stF⟩
              rw [hgtr] at h hgt
              have hlast5 : lastOf st5 i = some (RawV.conc r) := by
                have h5 : lastOf st5 i = lastOf st4 i := hob.2.1
                rw [h5, hst4]
                exact lastOf_setlast_self st3 i _ hex3
              have hgr : gr = Except.ok (RawV.conc r) := by
                have h1 := hgt.1
                rw [hlast5] at h1
                exact h1
              rw [hgr] at h
              exact Except.noConfusion h
  · intro v hdef h
    cases fuel with
    | zero => exact Except.noConfusion h
    | succ m =>
      cases hnd : getN st i with
      | none =>
        have hred : getNode (m+1) cfg st i = (Except.error RErr.badNode, st) := by
          simp [getNode, ← List.get?_eq_getElem?, hdef, hnd]
        rw [hred] at h
        exact Except.noConfusion h
      | some nd =>
        have hex : (getN st i).isSome = true := by rw [hnd]; rfl
        have hc := fun x => clearDependencies_preserves st i x
        by_cases hb2 : (nd.flag && isCallable nd.current) = true
        · have hb2c : nd.flag = true ∧ isCallable nd.current = true :=
            (Bool.and_eq_true nd.flag (isCallable nd.current)) ▸ hb2
          rcases isCallable_exists nd.current hb2c.2 with ⟨fid, hcur⟩
          cases hfe : cfg.fenv.get? fid with
          | none =>
            have hred : getNode (m+1) cfg st i =
                (match beginCollection (clearDependencies st i) i with
                 | (Except.error e, st2) => (Except.error e, st2)
                 | (Except.ok _, st2) => (Except.error RErr.badNode, st2)) := by
              simp [getNode, ← List.get?_eq_getElem?, hdef, hnd, hb2c.1, hcur, isCallable, hfe]
            rw [hred] at h
            set st1 := clearDependencies st i with hst1
            by_cases hmem : i ∈ st1.cset
            · rw [(beginCollection_spec st1 i).1 hmem] at h
              exact Except.noConfusion h
            · rw [(beginCollection_spec st1 i).2 hmem] at h
              exact Except.noConfusion h
          | some fexpr =>
            have hred : getNode (m+1) cfg st i =
                (match beginCollection (clearDependencies st i) i with
                 | (Except.error e, st2) => (Except.error e, st2)
                 | (Except.ok _, st2) =>
                   match evalE m cfg st2 fexpr with
                   | (Except.ok r, st3) =>
                     sigAfterTry (m+1)
                       (modifyN st3 i (fun n2 => { n2 with last := some (RawV.conc r) })) i
                   | (Except.error e, st3) =>
                     if isSigFamily e then sigAfterTry (m+1) st3 i
                     else (Except.error e, st3)) := by
              simp [getNode, ← List.get?_eq_getElem?, hdef, hnd, hb2c.1, hcur, isCallable, hfe]
            rw [hred] at h ⊢
            set st1 := clearDependencies st i with hst1
            by_cases hmem : i ∈ st1.cset
            · rw [(beginCollection_spec st1 i).1 hmem] at h
              exact Except.noConfusion h
            · rw [(beginCollection_spec st1 i).2 hmem] at h ⊢
              dsimp only at h ⊢
              set st2 : RSt := { st1 with stack := i :: st1.stack, cset := i :: st1.cset }
                with hst2
              have hex2 : (getN st2 i).isSome = true := by
                show (getN st1 i).isSome = true
                rw [(hc i).2.2.2.2.2, hnd]
                rfl
              have hPA := (preserve_all m).2 cfg st2 fexpr
              rcases hev : evalE m cfg st2 fexpr with ⟨er, st3⟩
              rw [hev] at h hPA
              have hex3 : (getN st3 i).isSome = true := by
                rw [hPA.1.2.1 i]
                exact hex2
              cases er with
              | ok r =>
                dsimp only at h ⊢
                have hex4 : (getN (modifyN st3 i
                    (fun n2 => { n2 with last := some (RawV.conc r) })) i).isSome = true := by
                  rw [(modifyN_setlast st3 i (some (RawV.conc r)) i).2.2.1]
                  exact hex3
                exact (sigAfterTry_spec (m+1) _ i hex4).2.2.2.1 v h
              | error e0 =>
                dsimp only at h ⊢
                by_cases hsf : isSigFamily e0 = true
                · rw [if_pos hsf] at h ⊢
                  exact (sigAfterTry_spec (m+1) st3 i hex3).2.2.2.1 v h
                · rw [if_neg hsf] at h
                  exact Except.noConfusion h
        · have hb2f : (nd.flag && isCallable nd.current) = false := by
            cases hq : (nd.flag && isCallable nd.current)
            · rfl
            · exact absurd hq hb2
          have hred : getNode (m+1) cfg st i = getterTail (m+1) st i RErr.unresolvedSignal := by
            simp [getNode, ← List.get?_eq_getElem?, hdef, hnd, hb2f]
          rw [hred]
          exact (getterTail_spec (m+1) st i RErr.unresolvedSignal hex).2.2.2.1
  · intro e hdef hflag hcall h hne
    cases fuel with
    | zero => exact hflag
    | succ m =>
      cases hnd : getN st i with
      | none =>
        have hfalse : flagOf st i = false := by
          unfold flagOf
          rw [hnd]
          rfl
        rw [hfalse] at hflag
        exact Bool.noConfusion hflag
      | some nd =>
        have hex : (getN st i).isSome = true := by rw [hnd]; rfl
        have hc := fun x => clearDependencies_preserves st i x
        have hflT : nd.flag = true := by
          rw [← flagOf_eq st i nd hnd]
          exact hflag
        have hcalT : isCallable nd.current = true := by
          rw [← currentOf_eq st i nd hnd]
          exact hcall
        rcases isCallable_exists nd.current hcalT with ⟨fid, hcur⟩
        cases hfe : cfg.fenv.get? fid with
        | none =>
          have hred : getNode (m+1) cfg st i =
              (match beginCollection (clearDependencies st i) i with
               | (Except.error e, st2) => (Except.error e, st2)
               | (Except.ok _, st2) => (Except.error RErr.badNode, st2)) := by
            simp [getNode, ← List.get?_eq_getElem?, hdef, hnd, hflT, hcur, isCallable, hfe]
          rw [hred] at h ⊢
          set st1 := clearDependencies st i with hst1
          by_cases hmem : i ∈ st1.cset
          · rw [(beginCollection_spec st1 i).1 hmem] at h ⊢
            dsimp only
            rw [(hc i).2.2.1]
            exact hflag
          · rw [(beginCollection_spec st1 i).2 hmem] at h ⊢
            dsimp only
            show flagOf st1 i = true
            rw [(hc i).2.2.1]
            exact hflag
        | some fexpr =>
          have hred : getNode (m+1) cfg st i =
              (match beginCollection (clearDependencies st i) i with
               | (Except.error e, st2) => (Except.error e, st2)
               | (Except.ok _, st2) =>
                 match evalE m cfg st2 fexpr with
                 | (Except.ok r, st3) =>
                   sigAfterTry (m+1)
                     (modifyN st3 i (fun n2 => { n2 with last := some (RawV.conc r) })) i
                 | (Except.error e, st3) =>
                   if isSigFamily e then sigAfterTry (m+1) st3 i
                   else (Except.error e, st3)) := by
            simp [getNode, ← List.get?_eq_getElem?, hdef, hnd, hflT, hcur, isCallable, hfe]
          rw [hred] at h ⊢
          set st1 := clearDependencies st i with hst1
          by_cases hmem : i ∈ st1.cset
          · rw [(beginCollection_spec st1 i).1 hmem] at h ⊢
            dsimp only
            rw [(hc i).2.2.1]
            exact hflag
          · rw [(beginCollection_spec st1 i).2 hmem] at h ⊢
            dsimp only at h ⊢
            set st2 : RSt := { st1 with stack := i :: st1.stack, cset := i :: st1.cset }
              with hst2
            have hmem2 : i ∈ st2.cset := List.mem_cons_self i st1.cset
            have hflag2 : flagOf st2 i = true := by
              show flagOf st1 i = true
              rw [(hc i).2.2.1]
              exact hflag
            have hrb : ReentryBlocked cfg st2 i := by
              unfold ReentryBlocked
              rw [hdef]
              show isCallable (currentOf st2 i) = true
              have hcc : currentOf st2 i = currentOf st i := by
                show currentOf st1 i = currentOf st i
                exact (hc i).2.2.2.1
              rw [hcc]
              exact hcall
            have hex2 : (getN st2 i).isSome = true := by
              show (getN st1 i).isSome = true
              rw [(hc i).2.2.2.2.2, hnd]
              rfl
            have hPA := (preserve_all m).2 cfg st2 fexpr
            rcases hev : evalE m cfg st2 fexpr with ⟨er, st3⟩
            rw [hev] at h hPA
            have htr := hPA.2 i hmem2 hflag2 hrb
            have hex3 : (getN st3 i).isSome = true := by
              rw [hPA.1.2.1 i]
              exact hex2
            cases er with
            | ok r =>
              dsimp only at h ⊢
              have hex4 : (getN (modifyN st3 i
                  (fun n2 => { n2 with last := some (RawV.conc r) })) i).isSome = true := by
                rw [(modifyN_setlast st3 i (some (RawV.conc r)) i).2.2.1]
                exact hex3
              have hs := sigAfterTry_spec (m+1) _ i hex4
              rw [hs.2.2.2.2.2.1 e h hne i]
              rw [(modifyN_setlast st3 i (some (RawV.conc r)) i).1]
              exact htr.2.1
            | error e0 =>
              dsimp only at h ⊢
              by_cases hsf : isSigFamily e0 = true
              · rw [if_pos hsf] at h ⊢
                have hs := sigAfterTry_spec (m+1) st3 i hex3
                rw [hs.2.2.2.2.2.1 e h hne i]
                exact htr.2.1
              · rw [if_neg hsf] at h ⊢
                dsimp only
                exact htr.2.1
  · intro u h
    unfold effUpdate at h ⊢
    cases hd : cfg.defs.get? i with
    | none =>
      rw [hd] at h
      exact Except.noConfusion h
    | some d =>
      cases d with
      | sigDef =>
        rw [hd] at h
        exact Except.noConfusion h
      | compDef fac =>
        rw [hd] at h
        exact Except.noConfusion h
      | effDef body =>
        rw [hd] at h
        dsimp only at h ⊢
        have hc := fun x => clearDependencies_preserves st i x
        set st1 := clearDependencies st i with hst1
        by_cases hmem : i ∈ st1.cset
        · rw [(beginCollection_spec st1 i).1 hmem] at h
          exact Except.noConfusion h
        · rw [(beginCollection_spec st1 i).2 hmem] at h ⊢
          dsimp only at h ⊢
          set st2 : RSt := { st1 with stack := i :: st1.stack, cset := i :: st1.cset }
            with hst2
          rcases hev : evalE fuel cfg st2 body with ⟨er, st3⟩
          rw [hev] at h
          cases er with
          | error e0 => exact Except.noConfusion h
          | ok r =>
            dsimp only at h ⊢
            rcases hend : endCollection st3 i with ⟨er2, st5⟩
            rw [hend] at h
            cases er2 with
            | error e2 => exact Except.noConfusion h
            | ok u2 =>
              dsimp only at h ⊢
              cases hg5 : getN st5 i with
              | some nd5 =>
                exact (modifyN_setflag_false st5 i i).2.2.2.2 (by rw [hg5]; rfl)
              | none =>
                have hsame : modifyN st5 i (fun n2 => { n2 with flag := false }) = st5 := by
                  unfold modifyN
                  unfold getN at hg5
                  rw [hg5]
                rw [hsame]
                unfold flagOf
                rw [hg5]
                rfl
  · intro e h
    unfold effUpdate at h ⊢
    cases hd : cfg.defs.get? i with
    | none => rfl
    | some d =>
      cases d with
      | sigDef => rfl
      | compDef fac => rfl
      | effDef body =>
        rw [hd] at h
        dsimp only at h ⊢
        have hc := fun x => clearDependencies_preserves st i x
        set st1 := clearDependencies st i with hst1
        by_cases hmem : i ∈ st1.cset
        · rw [(beginCollection_spec st1 i).1 hmem] at h ⊢
          dsimp only
          exact (hc i).2.2.1
        · rw [(beginCollection_spec st1 i).2 hmem] at h ⊢
          dsimp only at h ⊢
          set st2 : RSt := { st1 with stack := i :: st1.stack, cset := i :: st1.cset }
            with hst2
          have hPA := (preserve_all fuel).2 cfg st2 body
          rcases hev : evalE fuel cfg st2 body with ⟨er, st3⟩
          rw [hev] at h hPA
          have hflageq : flagOf st3 i = flagOf st i := by
            cases hfi : flagOf st i with
            | false =>
              have h1 : flagOf st2 i = false := by
                show flagOf st1 i = false
                rw [(hc i).2.2.1]
                exact hfi
              exact hPA.1.2.2 i h1
            | true =>
              have hmem2 : i ∈ st2.cset := List.mem_cons_self i st1.cset
              have hflag2 : flagOf st2 i = true := by
                show flagOf st1 i = true
                rw [(hc i).2.2.1]
                exact hfi
              have hrb : ReentryBlocked cfg st2 i := by
                unfold ReentryBlocked
                rw [hd]
                trivial
              exact (hPA.2 i hmem2 hflag2 hrb).2.1
          cases er with
          | error e0 =>
            dsimp only
            exact hflageq
          | ok r =>
            dsimp only at h ⊢
            rcases hend : endCollection st3 i with ⟨er2, st5⟩
            rw [hend] at h
            have hob := endCollection_obs st3 i i
            rw [hend] at hob
            cases er2 with
            | error e2 =>
              dsimp only
              have h5 : flagOf st5 i = flagOf st3 i := hob.1
              rw [h5]
              exact hflageq
            | ok u2 => exact Except.noConfusion h

end Sebulvents

namespace Sebulvents

/-- C8 witness: at the concrete inputs the failed computed
recomputation keeps its flag raised while the successful constant
computed get comes out with the flag down. -/
theorem recomputation_clears_flag_after_body_witness :
    flagOf (getNode 40 cfgC8 stC8 0).2 0 = true
  ∧ flagOf (getNode 40 cfgConst stConst 0).2 0 = false := by
  constructor
  · exact (recomputation_clears_flag_after_body 40 cfgC8 stC8 0).2.1 (FExpr.read 1)
      RErr.unresolvedSignal rfl rfl rfl
  · exact (recomputation_clears_flag_after_body 40 cfgConst stConst 0).1 (FExpr.const 7)
      (RawV.conc 7) rfl rfl

end Sebulvents
